import Mathlib

/-!
Shallow embedding of the UNO rules engine (`uno_env.py`) and verification of
its specification claims.

Modelling conventions:
* Python lists are Lean `List`s in the same order; `list.pop()` (pop from the
  end) is `popLast`, `list.insert(0, x)` is `x :: l`, `list.append` is `++ [x]`.
* `Card` objects carry an `oid : Nat` field modelling Python object identity,
  because `Card` defines no `__eq__`: Python `==` on cards (used only by
  `list.remove`) is reference equality.  All other card comparisons in the
  source read individual fields or the rendered string, never `==`.
  `list.remove` raising `ValueError` is modelled by `removeFirst` returning
  `none`, and the methods performing a removal return `Option` accordingly.
* `random.shuffle` is modelled by an explicit parameter
  `σ : List Card → List Card`; genuine executions use a `σ` that permutes its
  argument, which theorems take as a hypothesis where it matters.
* Python indexing `player_hands[i]` is modelled with `List.getD`/`List.set`
  at `i.toNat`; every mutating call site in the source guards
  `player_idx == current_player`, which is a valid index in real states.
* Python integers are `Int` where they can go negative (`current_player`,
  `direction`, player indices) and `Nat` for the nonnegative counters;
  Python `%` with a positive divisor matches `Int.emod`.
* `print` calls are ignored.  The `while` loop of `initialize_game` is
  modelled with fuel (one unit per iteration); the fuel passed at the call
  site is proven sufficient below.
-/

inductive Color where
  | RED | BLUE | GREEN | YELLOW | WILD
deriving DecidableEq

/-- `Color.value` from the source enum. -/
def Color.str : Color → String
  | .RED => "R"
  | .BLUE => "B"
  | .GREEN => "G"
  | .YELLOW => "Y"
  | .WILD => "W"

inductive CardType where
  | NUMBER | SKIP | REVERSE | DRAW_TWO | WILD | WILD_DRAW_FOUR
deriving DecidableEq

/-- A UNO card.  `oid` models Python object identity (see header). -/
structure Card where
  oid : Nat
  color : Color
  value : String
  type : CardType
deriving DecidableEq

/-- `Card.__str__`.  The source's trailing fallback line is unreachable:
the five explicit branches cover every `CardType` except `NUMBER`, which is
the first branch. -/
def Card.str (c : Card) : String :=
  match c.type with
  | .NUMBER => c.color.str ++ c.value
  | .SKIP => c.color.str ++ "SK"
  | .REVERSE => c.color.str ++ "RV"
  | .DRAW_TWO => c.color.str ++ "+2"
  | .WILD => "WILD"
  | .WILD_DRAW_FOUR => "WILD+4"

/-- `Card.matches`. -/
def Card.matches (c other : Card) : Bool :=
  if c.color = Color.WILD ∨ other.color = Color.WILD then true
  else decide (c.color = other.color ∨ c.value = other.value)

/-- The card descriptions appended by `create_deck`, in construction order. -/
def deckSpecs : List (Color × String × CardType) :=
  let colors := [Color.RED, Color.BLUE, Color.GREEN, Color.YELLOW]
  (colors.map fun color =>
    (color, "0", CardType.NUMBER) ::
      ((List.range' 1 9).map fun num =>
        [(color, toString num, CardType.NUMBER),
         (color, toString num, CardType.NUMBER)]).flatten).flatten
  ++ (colors.map fun color =>
      [(color, "SK", CardType.SKIP), (color, "SK", CardType.SKIP),
       (color, "RV", CardType.REVERSE), (color, "RV", CardType.REVERSE),
       (color, "+2", CardType.DRAW_TWO), (color, "+2", CardType.DRAW_TWO)]).flatten
  ++ List.replicate 4 (Color.WILD, "W", CardType.WILD)
  ++ List.replicate 4 (Color.WILD, "+4", CardType.WILD_DRAW_FOUR)

/-- `create_deck`: each `Card(...)` constructor call yields a fresh object;
the position in construction order serves as the object id. -/
def createDeck : List Card :=
  deckSpecs.enum.map fun p => ⟨p.1, p.2.1, p.2.2.1, p.2.2.2⟩

/-- Python `l.pop()`: the last element and the remaining list, or `none`
when the list is empty (the call sites guard emptiness). -/
def popLast (l : List α) : Option (α × List α) :=
  match l.getLast? with
  | none => none
  | some a => some (a, l.dropLast)

/-- Python `l.remove(c)` for cards: drop the first element `== c`
(reference equality, hence structural equality on `Card` with `oid`);
`none` models the `ValueError` raised when no element matches. -/
def removeFirst : List Card → Card → Option (List Card)
  | [], _ => none
  | x :: xs, c => if x = c then some xs else (removeFirst xs c).map (x :: ·)

structure UnoGameState where
  num_players : Nat
  current_player : Int
  direction : Int
  game_over : Bool
  winner : Option Int
  draw_pile_count : Nat
  skip_next : Bool
  pending_color : Option Color
  last_drawn_card : Option Card
  can_play_drawn_card : Bool
  deck : List Card
  discard_pile : List Card
  player_hands : List (List Card)
  turn_count : Nat
  players_uno : List Bool
deriving DecidableEq

namespace UnoGameState

/-- `UnoGameState.__init__` after the (fatal) `2 <= num_players <= 4`
validation has passed. -/
def initState (n : Nat) : UnoGameState where
  num_players := n
  current_player := 0
  direction := 1
  game_over := false
  winner := none
  draw_pile_count := 0
  skip_next := false
  pending_color := none
  last_drawn_card := none
  can_play_drawn_card := false
  deck := []
  discard_pile := []
  player_hands := []
  turn_count := 0
  players_uno := List.replicate n false

/-- `self.player_hands[player_idx]` (read). -/
def hand (s : UnoGameState) (p : Int) : List Card :=
  s.player_hands.getD p.toNat []

/-- `self.player_hands[player_idx] = h` (write a whole hand). -/
def setHand (s : UnoGameState) (p : Int) (h : List Card) : UnoGameState :=
  { s with player_hands := s.player_hands.set p.toNat h }

/-- `get_top_card`.  The virtual card built for a chosen wild color is a
fresh Python object whose identity is never consulted; its `oid` is
irrelevant and we reuse the top card's. -/
def getTopCard (s : UnoGameState) : Option Card :=
  match s.discard_pile.getLast? with
  | none => none
  | some top =>
    match s.pending_color with
    | some pc =>
      if top.color = Color.WILD ∧ pc ≠ Color.WILD then
        some ⟨top.oid, pc, top.value, top.type⟩
      else some top
    | none => some top

/-- `_can_play_card`. -/
def canPlayCard (s : UnoGameState) (card : Card) (top : Option Card)
    (isDrawPile : Bool) : Bool :=
  match top with
  | none => true
  | some top =>
    if card.color = Color.WILD then true
    else
      let rest : Bool :=
        if isDrawPile then
          if top.type = CardType.DRAW_TWO then
            decide (card.type = CardType.DRAW_TWO) &&
              decide (card.color = top.color ∨ card.color = Color.WILD)
          else if top.type = CardType.WILD_DRAW_FOUR then
            decide (card.type = CardType.WILD_DRAW_FOUR)
          else false
        else card.matches top
      match s.pending_color with
      | some pc => if pc ≠ Color.WILD then decide (card.color = pc) else rest
      | none => rest

inductive LegalAct where
  | play (c : Card)
  | draw
deriving DecidableEq

/-- `get_legal_actions`. -/
def getLegalActions (s : UnoGameState) (p : Int) : List LegalAct :=
  let top := s.getTopCard
  if 0 < s.draw_pile_count then
    ((s.hand p).filter fun c => top.isSome && s.canPlayCard c top true).map
        LegalAct.play
      ++ [LegalAct.draw]
  else
    ((s.hand p).filter fun c => s.canPlayCard c top false).map LegalAct.play
      ++ [LegalAct.draw]

/-- `_reshuffle_deck`. -/
def reshuffleDeck (σ : List Card → List Card) (s : UnoGameState) :
    UnoGameState :=
  if 1 < s.discard_pile.length then
    match popLast s.discard_pile with
    | some (top, rest) => { s with deck := σ rest, discard_pile := [top] }
    | none => s
  else s

/-- `draw_card`. -/
def drawCard (σ : List Card → List Card) (s : UnoGameState) (p : Int) :
    UnoGameState × Option Card :=
  let s := if s.deck.isEmpty then s.reshuffleDeck σ else s
  match popLast s.deck with
  | some (c, d) => ({ s.setHand p (s.hand p ++ [c]) with deck := d }, some c)
  | none => (s, none)

/-- `for _ in range(k): self.draw_card(player_idx)`. -/
def drawN (σ : List Card → List Card) (s : UnoGameState) (p : Int) :
    Nat → UnoGameState
  | 0 => s
  | k + 1 => drawN σ (s.drawCard σ p).1 p k

/-- `_advance_turn`. -/
def advanceTurn (s : UnoGameState) : UnoGameState :=
  { s with turn_count := s.turn_count + 1,
           current_player :=
             (s.current_player + s.direction) % (s.num_players : Int) }

/-- `_advance_turn_with_skip`. -/
def advanceTurnWithSkip (s : UnoGameState) : UnoGameState :=
  let s :=
    if s.skip_next then
      let c1 := (s.current_player + s.direction) % (s.num_players : Int)
      { s with current_player := (c1 + s.direction) % (s.num_players : Int),
               skip_next := false }
    else
      { s with current_player :=
          (s.current_player + s.direction) % (s.num_players : Int) }
  let s := { s with turn_count := s.turn_count + 1 }
  match s.pending_color with
  | some _ =>
    match s.getTopCard with
    | some top =>
      if top.color ≠ Color.WILD then { s with pending_color := none } else s
    | none => s
  | none => s

/-- `_apply_special_effect`. -/
def applySpecialEffect (s : UnoGameState) (card : Card) : UnoGameState :=
  match card.type with
  | CardType.SKIP => { s with skip_next := true }
  | CardType.REVERSE =>
    let s := { s with direction := s.direction * (-1) }
    if s.num_players = 2 then { s with skip_next := true } else s
  | CardType.DRAW_TWO => { s with draw_pile_count := s.draw_pile_count + 2 }
  | CardType.WILD_DRAW_FOUR =>
    { s with draw_pile_count := s.draw_pile_count + 4 }
  | _ => s

/-- `draw_with_option`. -/
def drawWithOption (σ : List Card → List Card) (s : UnoGameState) (p : Int) :
    UnoGameState × Option Card × Bool :=
  if p ≠ s.current_player then (s, none, false)
  else if 0 < s.draw_pile_count then
    let s := drawN σ s p s.draw_pile_count
    let s := { s with draw_pile_count := 0 }
    (s.advanceTurn, none, false)
  else
    let (s, drawn) := s.drawCard σ p
    match drawn with
    | some c =>
      if s.canPlayCard c s.getTopCard false then
        ({ s with last_drawn_card := some c, can_play_drawn_card := true },
          some c, true)
      else
        ({ s.advanceTurn with last_drawn_card := none,
                              can_play_drawn_card := false },
          some c, false)
    | none =>
      ({ s.advanceTurn with last_drawn_card := none,
                            can_play_drawn_card := false },
        none, false)

/-- The shared tail of the two play paths once a card is being committed:
remove from the hand (`none` = `ValueError`), append to the discard pile,
apply the special effect, record UNO. -/
def commitCard (s : UnoGameState) (p : Int) (card : Card) :
    Option UnoGameState :=
  match removeFirst (s.hand p) card with
  | none => none
  | some h =>
    let s := s.setHand p h
    let s := { s with discard_pile := s.discard_pile ++ [card] }
    let s := s.applySpecialEffect card
    let s :=
      if (s.hand p).length = 1 then
        { s with players_uno := s.players_uno.set p.toNat true }
      else s
    some s

/-- `play_drawn_card`. -/
def playDrawnCard (s : UnoGameState) (p : Int) (chosenColor : Option Color) :
    Option (UnoGameState × Bool) :=
  if p ≠ s.current_player then some (s, false)
  else if ¬s.can_play_drawn_card ∨ s.last_drawn_card = none then
    some (s, false)
  else
    match s.last_drawn_card with
    | none => some (s, false)
    | some card =>
      let step2 (s : UnoGameState) : Option (UnoGameState × Bool) :=
        match s.commitCard p card with
        | none => none
        | some s =>
          if (s.hand p).length = 0 then
            some ({ s with game_over := true, winner := some p,
                           last_drawn_card := none,
                           can_play_drawn_card := false }, true)
          else
            some ({ s.advanceTurnWithSkip with last_drawn_card := none,
                                               can_play_drawn_card := false },
              true)
      if card.type = CardType.WILD ∨ card.type = CardType.WILD_DRAW_FOUR then
        match chosenColor with
        | none => some (s, false)
        | some col =>
          if col = Color.WILD then some (s, false)
          else step2 { s with pending_color := some col }
      else step2 s

/-- `end_turn_after_draw`. -/
def endTurnAfterDraw (s : UnoGameState) (p : Int) : UnoGameState × Bool :=
  if p ≠ s.current_player then (s, false)
  else
    (advanceTurn { s with last_drawn_card := none,
                          can_play_drawn_card := false }, true)

/-- `apply_action`. -/
def applyAction (σ : List Card → List Card) (s : UnoGameState) (p : Int)
    (action : String) (card : Option Card) (chosenColor : Option Color) :
    Option (UnoGameState × Bool) :=
  if s.game_over then some (s, false)
  else if p ≠ s.current_player then some (s, false)
  else if action = "draw" then
    let (s, _, isPlayable) := s.drawWithOption σ p
    let s := if isPlayable then (s.endTurnAfterDraw p).1 else s
    some (s, true)
  else if action = "play" ∧ card.isSome then
    match card with
    | none => some (s, false)
    | some card =>
      let step2 (s : UnoGameState) : Option (UnoGameState × Bool) :=
        match s.commitCard p card with
        | none => none
        | some s =>
          if (s.hand p).length = 0 then
            some ({ s with game_over := true, winner := some p }, true)
          else some (s.advanceTurnWithSkip, true)
      if ¬(s.getLegalActions p).any (fun a =>
          match a with
          | LegalAct.play c => c.str = card.str
          | LegalAct.draw => false) then
        some (s, false)
      else if card.type = CardType.WILD ∨
          card.type = CardType.WILD_DRAW_FOUR then
        match chosenColor with
        | none => some (s, false)
        | some col =>
          if col = Color.WILD then some (s, false)
          else step2 { s with pending_color := some col }
      else step2 s
  else some (s, false)

/-- The card drawn first in `initialize_game` when seeding the discard pile
is cycled to the front of the deck while it is a wild or an action card and
more than one card remains; fuel bounds the `while` loop (proven sufficient
below for initialization-time deck sizes). -/
def badStart (c : Card) : Bool :=
  decide (c.color = Color.WILD) ||
    decide (c.type = CardType.SKIP ∨ c.type = CardType.REVERSE ∨
      c.type = CardType.DRAW_TWO)

def initLoop : Nat → Card → List Card → Card × List Card
  | 0, top, deck => (top, deck)
  | fuel + 1, top, deck =>
    if badStart top ∧ 1 < deck.length then
      match popLast (top :: deck) with
      | some (top', deck') => initLoop fuel top' deck'
      | none => (top, deck)
    else (top, deck)

/-- One step of the dealing loop body
`if self.deck: self.player_hands[p].append(self.deck.pop())`. -/
def dealStep (hd : List (List Card) × List Card) (p : Nat) :
    List (List Card) × List Card :=
  match popLast hd.2 with
  | some (c, d) => (hd.1.set p (hd.1.getD p [] ++ [c]), d)
  | none => hd

/-- The player sequence of the nested dealing loops: 7 rounds over all
player indices. -/
def dealOrder (n : Nat) : List Nat :=
  (List.replicate 7 (List.range n)).flatten

/-- `initialize_game`. -/
def initializeGame (σ : List Card → List Card) (s : UnoGameState) :
    UnoGameState :=
  let deck := σ createDeck
  let hands := List.replicate s.num_players ([] : List Card)
  let (hands, deck) := (dealOrder s.num_players).foldl dealStep (hands, deck)
  let (discard, deck) :=
    match popLast deck with
    | some (top, d) =>
      let (top, d) := initLoop d.length top d
      (s.discard_pile ++ [top], d)
    | none => (s.discard_pile, deck)
  { s with deck := deck, player_hands := hands, discard_pile := discard,
           draw_pile_count := 0, skip_next := false, pending_color := none,
           last_drawn_card := none, can_play_drawn_card := false }

/-- States reachable through the public interface: a freshly initialized
game (for any shuffles and a valid player count) followed by any sequence
of public mutator calls that complete without an uncaught exception. -/
inductive Reachable : UnoGameState → Prop where
  | init (σ : List Card → List Card) (n : Nat) :
      (∀ l, (σ l).Perm l) → 2 ≤ n → n ≤ 4 →
      Reachable (initializeGame σ (initState n))
  | apply (σ : List Card → List Card) (s : UnoGameState) (p : Int)
      (action : String) (card : Option Card) (chosenColor : Option Color)
      (s' : UnoGameState) (b : Bool) :
      Reachable s → (∀ l, (σ l).Perm l) →
      applyAction σ s p action card chosenColor = some (s', b) →
      Reachable s'
  | draw (σ : List Card → List Card) (s : UnoGameState) (p : Int) :
      Reachable s → (∀ l, (σ l).Perm l) →
      Reachable (s.drawWithOption σ p).1
  | playDrawn (s : UnoGameState) (p : Int) (chosenColor : Option Color)
      (s' : UnoGameState) (b : Bool) :
      Reachable s → playDrawnCard s p chosenColor = some (s', b) →
      Reachable s'
  | endTurn (s : UnoGameState) (p : Int) :
      Reachable s → Reachable (s.endTurnAfterDraw p).1

end UnoGameState

open UnoGameState

/-! ## Concrete cards and states used to instantiate the claims -/

/-- RED 2 seeding the discard pile in the forced scenario of §8. -/
def cRed2 : Card := ⟨300, Color.RED, "2", CardType.NUMBER⟩

def cRed5 : Card := ⟨301, Color.RED, "5", CardType.NUMBER⟩

def cWild : Card := ⟨302, Color.WILD, "W", CardType.WILD⟩

def cBlue3 : Card := ⟨303, Color.BLUE, "3", CardType.NUMBER⟩

def cRedSkip : Card := ⟨304, Color.RED, "SK", CardType.SKIP⟩

def cGreenDrawTwo : Card := ⟨305, Color.GREEN, "+2", CardType.DRAW_TWO⟩

def cYellowReverse : Card := ⟨306, Color.YELLOW, "RV", CardType.REVERSE⟩

/-- The forced 3-player scenario of §8: discard `[RED-2]`, hands
`[{RED-5, WILD}, {BLUE-3, RED-SKIP}, {GREEN-+2, YELLOW-RV}]`,
`current_player = 0`. -/
def sScenario : UnoGameState :=
  { initState 3 with
    discard_pile := [cRed2],
    player_hands := [[cRed5, cWild], [cBlue3, cRedSkip],
                     [cGreenDrawTwo, cYellowReverse]] }

/-- The state the engine produces when player 0 plays the WILD choosing
BLUE in the §8 scenario. -/
def sScenarioAfter : UnoGameState :=
  ((applyAction id sScenario 0 "play" (some cWild) (some Color.BLUE)).getD
    (sScenario, false)).1

/-- Cards for the win scenario (C3): 2 players, player 0 one card from
victory. -/
def cR9w : Card := ⟨310, Color.RED, "9", CardType.NUMBER⟩

def cR8w : Card := ⟨311, Color.RED, "8", CardType.NUMBER⟩

def cB6w : Card := ⟨312, Color.BLUE, "6", CardType.NUMBER⟩

def cG1w : Card := ⟨313, Color.GREEN, "1", CardType.NUMBER⟩

def sPreWin : UnoGameState :=
  { initState 2 with
    discard_pile := [cR8w], deck := [cG1w],
    player_hands := [[cR9w], [cB6w]] }

/-- The post-win state: player 0 has just played their last card. -/
def sWon : UnoGameState :=
  ((applyAction id sPreWin 0 "play" (some cR9w) none).getD
    (sPreWin, false)).1

/-- What `draw_with_option(0)` leaves behind when called after the win. -/
def sWonAfterDraw : UnoGameState := (sWon.drawWithOption id 0).1

/-- Cards for the value-identity scenario (C5). -/
def cR5h : Card := ⟨320, Color.RED, "5", CardType.NUMBER⟩

def cWildInHand : Card := ⟨321, Color.WILD, "W", CardType.WILD⟩

/-- A distinct card object with the same color, rank-label and type as
`cWildInHand` (different `oid` = different Python object). -/
def cWildDup : Card := ⟨900, Color.WILD, "W", CardType.WILD⟩

def sIdent : UnoGameState :=
  { initState 2 with
    discard_pile := [cR8w],
    player_hands := [[cR5h, cWildInHand], [cB6w, cG1w]] }

/-! ### A reachable state with an active DRAW_TWO chain (C2)

`myDeck` is a permutation of `create_deck`'s output arranged so that after
`initialize_game` on 2 players, player 0's first-dealt card is the RED
DRAW_TWO (oid 80), player 1's is a WILD (oid 100), and the starting discard
card is a RED 5 — so player 0 can open with the DRAW_TWO, starting a chain. -/

def cR5d : Card := ⟨9, Color.RED, "5", CardType.NUMBER⟩

def cDrawTwoR : Card := ⟨80, Color.RED, "+2", CardType.DRAW_TWO⟩

def cWild100 : Card := ⟨100, Color.WILD, "W", CardType.WILD⟩

def c2Fillers : List Card :=
  [⟨20, Color.BLUE, "1", CardType.NUMBER⟩, ⟨21, Color.BLUE, "1", CardType.NUMBER⟩,
   ⟨22, Color.BLUE, "2", CardType.NUMBER⟩, ⟨23, Color.BLUE, "2", CardType.NUMBER⟩,
   ⟨24, Color.BLUE, "3", CardType.NUMBER⟩, ⟨25, Color.BLUE, "3", CardType.NUMBER⟩,
   ⟨26, Color.BLUE, "4", CardType.NUMBER⟩, ⟨27, Color.BLUE, "4", CardType.NUMBER⟩,
   ⟨28, Color.BLUE, "5", CardType.NUMBER⟩, ⟨29, Color.BLUE, "5", CardType.NUMBER⟩,
   ⟨30, Color.BLUE, "6", CardType.NUMBER⟩, ⟨31, Color.BLUE, "6", CardType.NUMBER⟩]

def myDeck : List Card :=
  createDeck.filter
      (fun c => ¬ (([9, 80, 100] ++ List.range' 20 12 : List Nat)).contains c.oid)
    ++ [cR5d] ++ c2Fillers ++ [cWild100, cDrawTwoR]

/-- A shuffle function realizing `myDeck` on the freshly created deck (a
permutation, as proven where used). -/
def sigma0 : List Card → List Card :=
  fun l => if l = createDeck then myDeck else l

def sInitChain : UnoGameState := initializeGame sigma0 (initState 2)

/-- The reachable state after player 0 opens with the RED DRAW_TWO:
`draw_pile_count = 2`, player 1 to move holding a plain WILD. -/
def sChain : UnoGameState :=
  ((applyAction sigma0 sInitChain 0 "play" (some cDrawTwoR) none).getD
    (sInitChain, false)).1

/-! ### The claim's legality characterization (C2), from the spec's words -/

/-- "C's type/color matches the chain's required continuation": for a
DRAW_TWO chain, C is a DRAW_TWO whose color equals the top card's color or
is WILD; for a WILD_DRAW_FOUR chain, C is a WILD_DRAW_FOUR; nothing else. -/
def chainContinues (c top : Card) : Prop :=
  (top.type = CardType.DRAW_TWO ∧ c.type = CardType.DRAW_TWO ∧
    (c.color = top.color ∨ c.color = Color.WILD))
  ∨ (top.type = CardType.WILD_DRAW_FOUR ∧ c.type = CardType.WILD_DRAW_FOUR)

/-- The right-hand side of claim C2's biconditional, written from the
spec's words. -/
def claimC2RHS (s : UnoGameState) (c : Card) : Prop :=
  ∃ top, s.getTopCard = some top ∧
    ((s.draw_pile_count = 0 ∧ c.matches top = true ∧
        (s.pending_color = none ∨ s.pending_color = some c.color ∨
          c.color = Color.WILD))
     ∨ (0 < s.draw_pile_count ∧ chainContinues c top))

/-- C2's right-hand side as amended: a wild-colored card is additionally
always a legal play during an active draw-chain. -/
def claimC2AmendedRHS (s : UnoGameState) (c : Card) : Prop :=
  ∃ top, s.getTopCard = some top ∧
    ((s.draw_pile_count = 0 ∧ c.matches top = true ∧
        (s.pending_color = none ∨ s.pending_color = some c.color ∨
          c.color = Color.WILD))
     ∨ (0 < s.draw_pile_count ∧
        (c.color = Color.WILD ∨ chainContinues c top)))

/-- The state invariant carried through `Reachable`: while the game is not
over the pending wild color is resolved (the engine clears it at the end of
every play), and the discard pile is never empty after initialization. -/
def StateInv (s : UnoGameState) : Prop :=
  (s.game_over = false → s.pending_color = none) ∧ s.discard_pile ≠ []

/-- The multiset of all cards in the game: deck, discard pile and all
hands together (C9). -/
def allCards (s : UnoGameState) : Multiset Card :=
  Multiset.ofList s.deck + Multiset.ofList s.discard_pile +
    (s.player_hands.map Multiset.ofList).sum

/-- Cards available to a drawing player without yielding "no card": the
deck plus the reshufflable part of the discard pile (everything but its
top card). -/
def availCards (s : UnoGameState) : Nat :=
  s.deck.length + (s.discard_pile.length - 1)

/-- The §8 scenario with a recorded playable drawn WILD (for the
`play_drawn_card` chosen-color violation instance). -/
def sDrawnWild : UnoGameState :=
  { sScenario with
      last_drawn_card := some cWild,
      can_play_drawn_card := true }

/-- Cards and states for the draw-chain instances (C7). -/
def cRedDrawTwoW : Card := ⟨330, Color.RED, "+2", CardType.DRAW_TWO⟩

def cRedWildFourW : Card := ⟨331, Color.WILD, "+4", CardType.WILD_DRAW_FOUR⟩

def sPlayD2 : UnoGameState :=
  { initState 2 with
      discard_pile := [cR8w],
      player_hands := [[cRedDrawTwoW, cR5h], [cB6w, cG1w]] }

def sPlayW4 : UnoGameState :=
  { initState 2 with
      discard_pile := [cR8w],
      player_hands := [[cRedWildFourW, cR5h], [cB6w, cG1w]] }

def sDrawnD2 : UnoGameState :=
  { sPlayD2 with
      last_drawn_card := some cRedDrawTwoW,
      can_play_drawn_card := true }

/-- An active chain of 2 with one deck card and one reshufflable discard
card: consuming the chain must draw across the reshuffle. -/
def sChainDraw : UnoGameState :=
  { initState 2 with
      current_player := 1,
      draw_pile_count := 2,
      discard_pile := [cR8w, cRedDrawTwoW],
      deck := [cG1w],
      player_hands := [[cR5h], [cB6w]] }

def sPlayD2After : UnoGameState :=
  ((applyAction id sPlayD2 0 "play" (some cRedDrawTwoW) none).getD
    (sPlayD2, false)).1

def sPlayW4After : UnoGameState :=
  ((applyAction id sPlayW4 0 "play" (some cRedWildFourW)
      (some Color.BLUE)).getD (sPlayW4, false)).1

def sDrawnD2After : UnoGameState :=
  ((playDrawnCard sDrawnD2 0 none).getD (sDrawnD2, false)).1

/-- An exhausted deck with two discard cards (reshuffle instance, C9). -/
def sReshuffle : UnoGameState :=
  { initState 2 with discard_pile := [cR8w, cRedDrawTwoW] }

/-- A distinct RED-5 object with the same printed value as `cRed5`
(C5). -/
def cRed5Dup : Card := ⟨777, Color.RED, "5", CardType.NUMBER⟩

/-! ## Claim theorems -/

/-- C1 (code bug): in the forced §8 scenario, playing WILD with
chosen_color = BLUE succeeds and advances to player 1, but — contrary to
the claim — `pending_color` has already been cleared again (the clearing
check in `_advance_turn_with_skip` consults the *virtual* top card, whose
color is the chosen color and hence never WILD), so player 1's legal
actions still include RED-SKIP.  The claim describes the intended
behavior; this theorem evaluates the code at the failing input. -/
theorem claim_C1 :
    applyAction id sScenario 0 "play" (some cWild) (some Color.BLUE) =
      some (sScenarioAfter, true) ∧
    sScenarioAfter.pending_color = none ∧
    sScenarioAfter.current_player = 1 ∧
    LegalAct.play cBlue3 ∈ sScenarioAfter.getLegalActions 1 ∧
    LegalAct.play cRedSkip ∈ sScenarioAfter.getLegalActions 1 := by
  decide

/-- C3 (code bug): a play that empties the hand does set
`game_over = true` and `winner` (first three conjuncts, the claim's true
half), and `apply_action` afterwards fails without mutation — but
`draw_with_option` has no `game_over` guard: called by the winner (who is
still `current_player`, since the winning return skips turn advancement)
it draws a card, mutating hands, deck and the turn counter, instead of
failing. -/
theorem claim_C3 :
    applyAction id sPreWin 0 "play" (some cR9w) none = some (sWon, true) ∧
    sWon.game_over = true ∧
    sWon.winner = some 0 ∧
    applyAction id sWon 0 "play" (some cB6w) none = some (sWon, false) ∧
    applyAction id sWon 1 "draw" none none = some (sWon, false) ∧
    sWon.drawWithOption id 0 = (sWonAfterDraw, some cG1w, false) ∧
    sWonAfterDraw ≠ sWon ∧
    (sWonAfterDraw.hand 0).length = 1 ∧
    sWonAfterDraw.turn_count = sWon.turn_count + 1 := by
  decide

/-- C5 (counterexample): card equality is *not* by value.  In `sIdent`
the WILD in player 0's hand is a legal play, and `cWildDup` is a distinct
card object with the same color, rank-label and type — yet playing
`cWildDup` does not behave like playing the hand's own WILD: it passes the
string-based legality re-validation and then `list.remove` raises an
uncaught `ValueError` (modelled by `none`), because `remove` compares by
object identity. -/
theorem claim_C5_counterexample :
    cWildInHand ∈ sIdent.hand 0 ∧
    LegalAct.play cWildInHand ∈ sIdent.getLegalActions 0 ∧
    cWildDup.color = cWildInHand.color ∧
    cWildDup.value = cWildInHand.value ∧
    cWildDup.type = cWildInHand.type ∧
    cWildDup ≠ cWildInHand ∧
    applyAction id sIdent 0 "play" (some cWildDup) (some Color.BLUE) =
      none := by
  decide

/-- C10 (confirmed): `end_turn_after_draw` succeeds whenever it is called
by the current player, with no other precondition — no drawn-card record
needs to exist and `game_over` is not consulted.  It clears the drawn-card
record, advances the turn by one step, and touches nothing else, so the
current player can pass a turn outright. -/
theorem claim_C10 (s : UnoGameState) (p : Int) (h : p = s.current_player) :
    ∃ s', s.endTurnAfterDraw p = (s', true) ∧
      s'.last_drawn_card = none ∧ s'.can_play_drawn_card = false ∧
      s'.current_player =
        (s.current_player + s.direction) % (s.num_players : Int) ∧
      s'.turn_count = s.turn_count + 1 ∧
      s'.player_hands = s.player_hands ∧ s'.deck = s.deck ∧
      s'.discard_pile = s.discard_pile ∧ s'.game_over = s.game_over ∧
      s'.winner = s.winner ∧ s'.draw_pile_count = s.draw_pile_count := by
  subst h
  refine ⟨advanceTurn { s with last_drawn_card := none,
                               can_play_drawn_card := false },
    ?_, ?_, ?_, ?_, ?_, ?_, ?_, ?_, ?_, ?_, ?_⟩ <;>
    simp [endTurnAfterDraw, advanceTurn]

/-- C10 witness: at the post-win state `sWon` (game over, no drawn-card
record) the call still succeeds and advances the turn. -/
theorem claim_C10_witness :
    ((0 : Int) = sWon.current_player ∧ sWon.game_over = true ∧
      sWon.can_play_drawn_card = false ∧ sWon.last_drawn_card = none) ∧
    (∃ s', sWon.endTurnAfterDraw 0 = (s', true) ∧
      s'.last_drawn_card = none ∧ s'.can_play_drawn_card = false ∧
      s'.current_player =
        (sWon.current_player + sWon.direction) % (sWon.num_players : Int) ∧
      s'.turn_count = sWon.turn_count + 1 ∧
      s'.player_hands = sWon.player_hands ∧ s'.deck = sWon.deck ∧
      s'.discard_pile = sWon.discard_pile ∧ s'.game_over = sWon.game_over ∧
      s'.winner = sWon.winner ∧
      s'.draw_pile_count = sWon.draw_pile_count) :=
  ⟨by decide, claim_C10 sWon 0 (by decide)⟩


/-- C4 (confirmed): every listed rule-violation path is atomic — each of
the four mutators called out of turn, a wild play with a missing or WILD
chosen color (through `apply_action` or `play_drawn_card`), and an
`apply_action` play of a card not among the current legal actions, all
return the failure result with the state exactly as it was. -/
theorem claim_C4 :
    (∀ (σ : List Card → List Card) (s : UnoGameState) (p : Int) a c col,
      p ≠ s.current_player → applyAction σ s p a c col = some (s, false)) ∧
    (∀ (σ : List Card → List Card) (s : UnoGameState) (p : Int),
      p ≠ s.current_player → drawWithOption σ s p = (s, none, false)) ∧
    (∀ (s : UnoGameState) (p : Int) col,
      p ≠ s.current_player → playDrawnCard s p col = some (s, false)) ∧
    (∀ (s : UnoGameState) (p : Int),
      p ≠ s.current_player → endTurnAfterDraw s p = (s, false)) ∧
    (∀ (σ : List Card → List Card) (s : UnoGameState) (p : Int)
      (c : Card) col,
      c.type = CardType.WILD ∨ c.type = CardType.WILD_DRAW_FOUR →
      col = none ∨ col = some Color.WILD →
      applyAction σ s p "play" (some c) col = some (s, false)) ∧
    (∀ (s : UnoGameState) (p : Int) (c : Card) col,
      s.last_drawn_card = some c →
      c.type = CardType.WILD ∨ c.type = CardType.WILD_DRAW_FOUR →
      col = none ∨ col = some Color.WILD →
      playDrawnCard s p col = some (s, false)) ∧
    (∀ (σ : List Card → List Card) (s : UnoGameState) (p : Int)
      (c : Card) col,
      ¬ (s.getLegalActions p).any (fun a =>
          match a with
          | LegalAct.play x => x.str = c.str
          | LegalAct.draw => false) →
      applyAction σ s p "play" (some c) col = some (s, false)) := by
  refine ⟨?_, ?_, ?_, ?_, ?_, ?_, ?_⟩
  · intro σ s p a c col h
    unfold applyAction
    split
    · rfl
    · rfl
  · intro σ s p h
    unfold drawWithOption
    rw [if_pos h]
  · intro s p col h
    unfold playDrawnCard
    rw [if_pos h]
  · intro s p h
    unfold endTurnAfterDraw
    rw [if_pos h]
  · intro σ s p c col hw hcol
    unfold applyAction
    split
    · rfl
    split
    · rfl
    rw [if_neg (by simp), if_pos (by simp)]
    split
    · rfl
    next card heq =>
      injection heq with hc
      subst hc
      split
      · rfl
      · rcases hcol with rfl | rfl
        · rfl
        · rfl
  · intro s p c col hlast hw hcol
    unfold playDrawnCard
    split
    · rfl
    split
    · rfl
    split
    · rfl
    next top hcond =>
      rw [hlast] at hcond
      injection hcond with hc
      subst hc
      rw [if_pos hw]
      rcases hcol with rfl | rfl
      · rfl
      · rfl
  · intro σ s p c col h
    unfold applyAction
    split
    · rfl
    split
    · rfl
    rw [if_neg (by simp), if_pos (by simp)]
    split
    · rfl
    next card heq =>
      injection heq with hc
      subst hc
      rw [if_pos (by exact_mod_cast h)]

/-- C4 witness: each violation scenario instantiated at a concrete state
(out-of-turn calls at `sScenario` with player 1; a wild play with a
missing color; `play_drawn_card` on a recorded drawn WILD with chosen
color WILD; a play of a card not in the hand). -/
theorem claim_C4_witness :
    ((1 : Int) ≠ sScenario.current_player ∧
      applyAction id sScenario 1 "play" (some cBlue3) none =
        some (sScenario, false) ∧
      drawWithOption id sScenario 1 = (sScenario, none, false) ∧
      playDrawnCard sScenario 1 none = some (sScenario, false) ∧
      endTurnAfterDraw sScenario 1 = (sScenario, false)) ∧
    (applyAction id sScenario 0 "play" (some cWild) none =
      some (sScenario, false)) ∧
    (sDrawnWild.last_drawn_card = some cWild ∧
      playDrawnCard sDrawnWild 0 (some Color.WILD) =
        some (sDrawnWild, false)) ∧
    (¬ (sScenario.getLegalActions 0).any (fun a =>
        match a with
        | LegalAct.play x => x.str = cGreenDrawTwo.str
        | LegalAct.draw => false) ∧
      applyAction id sScenario 0 "play" (some cGreenDrawTwo) none =
        some (sScenario, false)) :=
  ⟨⟨by decide,
    claim_C4.1 id sScenario 1 "play" (some cBlue3) none (by decide),
    claim_C4.2.1 id sScenario 1 (by decide),
    claim_C4.2.2.1 sScenario 1 none (by decide),
    claim_C4.2.2.2.1 sScenario 1 (by decide)⟩,
   claim_C4.2.2.2.2.1 id sScenario 0 cWild none (Or.inl (by decide))
     (Or.inl rfl),
   ⟨by decide,
    claim_C4.2.2.2.2.2.1 sDrawnWild 0 cWild (some Color.WILD) (by decide)
      (Or.inl (by decide)) (Or.inr rfl)⟩,
   ⟨by decide,
    claim_C4.2.2.2.2.2.2 id sScenario 0 cGreenDrawTwo none (by decide)⟩⟩

/-- `_can_play_card` reads only `pending_color` from the state. -/
theorem canPlayCard_pending_congr (s s' : UnoGameState)
    (h : s.pending_color = s'.pending_color) (c : Card) (top : Option Card)
    (b : Bool) : canPlayCard s c top b = canPlayCard s' c top b := by
  unfold canPlayCard
  cases top with
  | none => rfl
  | some t => rw [h]

/-- `get_top_card` reads only the discard pile and `pending_color`. -/
theorem getTopCard_congr (s s' : UnoGameState)
    (h1 : s.discard_pile = s'.discard_pile)
    (h2 : s.pending_color = s'.pending_color) :
    s.getTopCard = s'.getTopCard := by
  unfold getTopCard
  rw [h1, h2]

/-- `draw_card` on a non-empty deck: pop the deck's last card and append it
to the player's hand. -/
theorem drawCard_eq_of_nonempty (σ : List Card → List Card)
    (s : UnoGameState) (p : Int) (c : Card) (hc : s.deck.getLast? = some c) :
    s.drawCard σ p =
      ({ s.setHand p (s.hand p ++ [c]) with deck := s.deck.dropLast },
        some c) := by
  have hd : s.deck ≠ [] := by
    intro h
    rw [h] at hc
    simp at hc
  have hne : s.deck.isEmpty = false := by simp [List.isEmpty_iff, hd]
  unfold drawCard popLast
  simp only [hne, Bool.false_eq_true, if_false, hc]

/-- `draw_with_option` by the current player outside a draw-chain, on a
non-empty deck, as one closed-form case split on the drawn card's
playability. -/
theorem drawWithOption_normal_eq (σ : List Card → List Card)
    (s : UnoGameState) (p : Int) (c : Card)
    (h1 : p = s.current_player) (h2 : s.draw_pile_count = 0)
    (hc : s.deck.getLast? = some c) :
    drawWithOption σ s p =
      (if s.canPlayCard c s.getTopCard false then
        ({ s.setHand p (s.hand p ++ [c]) with
             deck := s.deck.dropLast, last_drawn_card := some c,
             can_play_drawn_card := true }, some c, true)
      else
        ({ (({ s.setHand p (s.hand p ++ [c]) with
                 deck := s.deck.dropLast } : UnoGameState)).advanceTurn with
             last_drawn_card := none, can_play_drawn_card := false },
          some c, false)) := by
  unfold drawWithOption
  rw [if_neg (by simp [h1]), if_neg (by simp [h2]),
      drawCard_eq_of_nonempty σ s p c hc]
  rfl

/-- C6 (confirmed): `draw_with_option` by the current player with no
pending chain and a non-empty deck yields exactly one of two exclusive
outcomes — (a) the drawn card (the deck's last) is playable: the call
returns it flagged playable, the turn pointer and counter are untouched
and the drawn-card record is set; or (b) it is not playable: the call
returns it flagged not-playable, the turn has already advanced one step
and the drawn-card record is cleared. -/
theorem claim_C6 (σ : List Card → List Card) (s : UnoGameState) (p : Int)
    (h1 : p = s.current_player) (h2 : s.draw_pile_count = 0)
    (h3 : s.deck ≠ []) :
    ∃ c, s.deck.getLast? = some c ∧
      (s.canPlayCard c s.getTopCard false = true →
        (drawWithOption σ s p).2 = (some c, true) ∧
        (drawWithOption σ s p).1.current_player = s.current_player ∧
        (drawWithOption σ s p).1.turn_count = s.turn_count ∧
        (drawWithOption σ s p).1.can_play_drawn_card = true ∧
        (drawWithOption σ s p).1.last_drawn_card = some c) ∧
      (s.canPlayCard c s.getTopCard false = false →
        (drawWithOption σ s p).2 = (some c, false) ∧
        (drawWithOption σ s p).1.current_player =
          (s.current_player + s.direction) % (s.num_players : Int) ∧
        (drawWithOption σ s p).1.turn_count = s.turn_count + 1 ∧
        (drawWithOption σ s p).1.can_play_drawn_card = false ∧
        (drawWithOption σ s p).1.last_drawn_card = none) := by
  obtain ⟨c, hc⟩ : ∃ c, s.deck.getLast? = some c := by
    cases hd : s.deck.getLast? with
    | none => exact absurd (List.getLast?_eq_none_iff.mp hd) h3
    | some c => exact ⟨c, rfl⟩
  rw [drawWithOption_normal_eq σ s p c h1 h2 hc]
  refine ⟨c, hc, ?_, ?_⟩ <;> intro hplay <;> simp [hplay, advanceTurn, setHand]

/-- C6 witness: at `sPreWin` the current player draws the unplayable
GREEN 1 and the turn advances. -/
theorem claim_C6_witness :
    ((0 : Int) = sPreWin.current_player ∧ sPreWin.draw_pile_count = 0 ∧
      sPreWin.deck ≠ []) ∧
    (∃ c, sPreWin.deck.getLast? = some c ∧
      (sPreWin.canPlayCard c sPreWin.getTopCard false = true →
        (drawWithOption id sPreWin 0).2 = (some c, true) ∧
        (drawWithOption id sPreWin 0).1.current_player =
          sPreWin.current_player ∧
        (drawWithOption id sPreWin 0).1.turn_count = sPreWin.turn_count ∧
        (drawWithOption id sPreWin 0).1.can_play_drawn_card = true ∧
        (drawWithOption id sPreWin 0).1.last_drawn_card = some c) ∧
      (sPreWin.canPlayCard c sPreWin.getTopCard false = false →
        (drawWithOption id sPreWin 0).2 = (some c, false) ∧
        (drawWithOption id sPreWin 0).1.current_player =
          (sPreWin.current_player + sPreWin.direction) %
            (sPreWin.num_players : Int) ∧
        (drawWithOption id sPreWin 0).1.turn_count =
          sPreWin.turn_count + 1 ∧
        (drawWithOption id sPreWin 0).1.can_play_drawn_card = false ∧
        (drawWithOption id sPreWin 0).1.last_drawn_card = none)) :=
  ⟨by decide, claim_C6 id sPreWin 0 (by decide) (by decide) (by decide)⟩

/-! ## Structural lemmas about the mutators -/

/-- `_apply_special_effect` changes only `skip_next`, `direction` and
`draw_pile_count`. -/
theorem applySpecialEffect_fields (s : UnoGameState) (c : Card) :
    (s.applySpecialEffect c).pending_color = s.pending_color ∧
    (s.applySpecialEffect c).deck = s.deck ∧
    (s.applySpecialEffect c).discard_pile = s.discard_pile ∧
    (s.applySpecialEffect c).player_hands = s.player_hands ∧
    (s.applySpecialEffect c).current_player = s.current_player ∧
    (s.applySpecialEffect c).num_players = s.num_players ∧
    (s.applySpecialEffect c).turn_count = s.turn_count ∧
    (s.applySpecialEffect c).game_over = s.game_over ∧
    (s.applySpecialEffect c).winner = s.winner ∧
    (s.applySpecialEffect c).last_drawn_card = s.last_drawn_card ∧
    (s.applySpecialEffect c).can_play_drawn_card = s.can_play_drawn_card ∧
    (s.applySpecialEffect c).players_uno = s.players_uno := by
  unfold applySpecialEffect
  split <;> simp [apply_ite]

theorem applySpecialEffect_pdc (s : UnoGameState) (c : Card) :
    (s.applySpecialEffect c).draw_pile_count =
      s.draw_pile_count +
        (match c.type with
         | CardType.DRAW_TWO => 2
         | CardType.WILD_DRAW_FOUR => 4
         | _ => 0) := by
  unfold applySpecialEffect
  cases hc : c.type <;> simp [hc, apply_ite]

theorem advanceTurnWithSkip_fields (s : UnoGameState) :
    (s.advanceTurnWithSkip).deck = s.deck ∧
    (s.advanceTurnWithSkip).discard_pile = s.discard_pile ∧
    (s.advanceTurnWithSkip).player_hands = s.player_hands ∧
    (s.advanceTurnWithSkip).draw_pile_count = s.draw_pile_count ∧
    (s.advanceTurnWithSkip).game_over = s.game_over ∧
    (s.advanceTurnWithSkip).winner = s.winner ∧
    (s.advanceTurnWithSkip).num_players = s.num_players ∧
    (s.advanceTurnWithSkip).direction = s.direction ∧
    (s.advanceTurnWithSkip).last_drawn_card = s.last_drawn_card ∧
    (s.advanceTurnWithSkip).can_play_drawn_card = s.can_play_drawn_card ∧
    (s.advanceTurnWithSkip).players_uno = s.players_uno ∧
    (s.advanceTurnWithSkip).turn_count = s.turn_count + 1 := by
  unfold advanceTurnWithSkip getTopCard
  cases hsk : s.skip_next <;> cases hp : s.pending_color <;>
    cases hg : s.discard_pile.getLast? <;>
      simp [hsk, hp, hg, apply_ite] <;> (try split) <;> simp [apply_ite]

theorem commitCard_spec (s : UnoGameState) (p : Int) (c : Card)
    (s₂ : UnoGameState) (h : commitCard s p c = some s₂) :
    (∃ h', removeFirst (s.hand p) c = some h' ∧
      s₂.player_hands = s.player_hands.set p.toNat h') ∧
    s₂.pending_color = s.pending_color ∧
    s₂.deck = s.deck ∧
    s₂.discard_pile = s.discard_pile ++ [c] ∧
    s₂.current_player = s.current_player ∧
    s₂.num_players = s.num_players ∧
    s₂.turn_count = s.turn_count ∧
    s₂.game_over = s.game_over ∧
    s₂.winner = s.winner ∧
    s₂.last_drawn_card = s.last_drawn_card ∧
    s₂.can_play_drawn_card = s.can_play_drawn_card ∧
    s₂.skip_next = (s.applySpecialEffect c).skip_next ∧
    s₂.direction = (s.applySpecialEffect c).direction ∧
    s₂.draw_pile_count =
      s.draw_pile_count +
        (match c.type with
         | CardType.DRAW_TWO => 2
         | CardType.WILD_DRAW_FOUR => 4
         | _ => 0) := by
  unfold commitCard at h
  rcases hr : removeFirst (s.hand p) c with _ | h'
  · rw [hr] at h
    exact absurd h (by simp)
  · rw [hr] at h
    simp only [] at h
    split at h <;>
    · injection h with h2
      subst h2
      refine ⟨⟨h', rfl, ?_⟩, ?_⟩ <;>
        simp [applySpecialEffect_fields, applySpecialEffect_pdc, setHand] <;>
        constructor <;>
        first
          | rfl
          | (unfold applySpecialEffect
             cases hc : c.type <;> simp [hc, apply_ite, setHand])

theorem playDrawnCard_cases (s : UnoGameState) (p : Int) (col : Option Color)
    (s' : UnoGameState) (b : Bool) (h : playDrawnCard s p col = some (s', b)) :
    (b = false ∧ s' = s) ∨
    (b = true ∧ ∃ c s₀ s₂, s.last_drawn_card = some c ∧
      (s₀ = s ∨ ∃ col', col = some col' ∧ col' ≠ Color.WILD ∧
        (c.type = CardType.WILD ∨ c.type = CardType.WILD_DRAW_FOUR) ∧
        s₀ = { s with pending_color := some col' }) ∧
      commitCard s₀ p c = some s₂ ∧
      (s' = { s₂ with game_over := true, winner := some p,
                      last_drawn_card := none,
                      can_play_drawn_card := false } ∨
       s' = { s₂.advanceTurnWithSkip with last_drawn_card := none,
                                          can_play_drawn_card := false })) := by
  unfold playDrawnCard at h
  split at h
  · injection h with h2
    injection h2 with h3 h4
    exact Or.inl ⟨h4.symm, h3.symm⟩
  split at h
  · injection h with h2
    injection h2 with h3 h4
    exact Or.inl ⟨h4.symm, h3.symm⟩
  next hlast =>
  split at h
  · simp_all
  next c hc =>
    split at h
    · next hw =>
      rcases hcol : col with _ | col'
      · rw [hcol] at h
        injection h with h2
        injection h2 with h3 h4
        exact Or.inl ⟨h4.symm, h3.symm⟩
      · rw [hcol] at h
        simp only [] at h
        split at h
        · injection h with h2
          injection h2 with h3 h4
          exact Or.inl ⟨h4.symm, h3.symm⟩
        next hcw =>
          rcases hcm : commitCard { s with pending_color := some col' } p c
            with _ | s₂
          · rw [hcm] at h
            exact absurd h (by simp)
          · rw [hcm] at h
            simp only [] at h
            split at h <;>
            · injection h with h2
              injection h2 with h3 h4
              subst h3
              refine Or.inr ⟨h4.symm, c, _, s₂, hc, Or.inr ⟨col', rfl, hcw, hw, rfl⟩,
                hcm, ?_⟩
              simp
    · next hw =>
      simp only [] at h
      rcases hcm : commitCard s p c with _ | s₂
      · rw [hcm] at h
        exact absurd h (by simp)
      · rw [hcm] at h
        simp only [] at h
        split at h <;>
        · injection h with h2
          injection h2 with h3 h4
          subst h3
          refine Or.inr ⟨h4.symm, c, s, s₂, hc, Or.inl rfl, hcm, ?_⟩
          simp

theorem applyAction_cases (σ : List Card → List Card) (s : UnoGameState)
    (p : Int) (a : String) (card : Option Card) (col : Option Color)
    (s' : UnoGameState) (b : Bool)
    (h : applyAction σ s p a card col = some (s', b)) :
    (b = false ∧ s' = s) ∨
    (b = true ∧ a = "draw" ∧
      s' = (if (drawWithOption σ s p).2.2 = true then
              (((drawWithOption σ s p).1).endTurnAfterDraw p).1
            else (drawWithOption σ s p).1)) ∨
    (b = true ∧ ∃ c s₀ s₂, card = some c ∧
      (s₀ = s ∨ ∃ col', col = some col' ∧ col' ≠ Color.WILD ∧
        (c.type = CardType.WILD ∨ c.type = CardType.WILD_DRAW_FOUR) ∧
        s₀ = { s with pending_color := some col' }) ∧
      commitCard s₀ p c = some s₂ ∧
      (s' = { s₂ with game_over := true, winner := some p } ∨
       s' = s₂.advanceTurnWithSkip)) := by
  unfold applyAction at h
  split at h
  · injection h with h2
    injection h2 with h3 h4
    exact Or.inl ⟨h4.symm, h3.symm⟩
  split at h
  · injection h with h2
    injection h2 with h3 h4
    exact Or.inl ⟨h4.symm, h3.symm⟩
  split at h
  · next hdraw =>
    simp only [] at h
    rcases hd : drawWithOption σ s p with ⟨s₁, d₁, pl⟩
    rw [hd] at h
    simp only [] at h
    injection h with h2
    injection h2 with h3 h4
    refine Or.inr (Or.inl ⟨h4.symm, hdraw, ?_⟩)
    simp only [] at h3 ⊢
    exact h3.symm
  split at h
  · next hplay =>
    rcases hcd : card with _ | c
    · rw [hcd] at h
      injection h with h2
      injection h2 with h3 h4
      exact Or.inl ⟨h4.symm, h3.symm⟩
    · rw [hcd] at h
      simp only [] at h
      split at h
      · injection h with h2
        injection h2 with h3 h4
        exact Or.inl ⟨h4.symm, h3.symm⟩
      split at h
      · next hw =>
        rcases hcol : col with _ | col'
        · rw [hcol] at h
          injection h with h2
          injection h2 with h3 h4
          exact Or.inl ⟨h4.symm, h3.symm⟩
        · rw [hcol] at h
          simp only [] at h
          split at h
          · injection h with h2
            injection h2 with h3 h4
            exact Or.inl ⟨h4.symm, h3.symm⟩
          next hcw =>
            rcases hcm : commitCard { s with pending_color := some col' } p c
              with _ | s₂
            · rw [hcm] at h
              exact absurd h (by simp)
            · rw [hcm] at h
              simp only [] at h
              split at h <;>
              · injection h with h2
                injection h2 with h3 h4
                subst h3
                exact Or.inr (Or.inr ⟨h4.symm, c, _, s₂, rfl,
                  Or.inr ⟨col', rfl, hcw, hw, rfl⟩, hcm, by simp⟩)
      · next hw =>
        rcases hcm : commitCard s p c with _ | s₂
        · rw [hcm] at h
          exact absurd h (by simp)
        · rw [hcm] at h
          simp only [] at h
          split at h <;>
          · injection h with h2
            injection h2 with h3 h4
            subst h3
            exact Or.inr (Or.inr ⟨h4.symm, c, s, s₂, rfl, Or.inl rfl, hcm,
              by simp⟩)
  · injection h with h2
    injection h2 with h3 h4
    exact Or.inl ⟨h4.symm, h3.symm⟩

theorem drawWithOption_cases (σ : List Card → List Card) (s : UnoGameState)
    (p : Int) :
    (drawWithOption σ s p).1 = s ∨
    (drawWithOption σ s p).1 =
      advanceTurn { drawN σ s p s.draw_pile_count with draw_pile_count := 0 } ∨
    (drawWithOption σ s p).1 =
      { (s.drawCard σ p).1 with
          last_drawn_card := (s.drawCard σ p).2,
          can_play_drawn_card := true } ∨
    (drawWithOption σ s p).1 =
      { ((s.drawCard σ p).1).advanceTurn with
          last_drawn_card := none,
          can_play_drawn_card := false } := by
  unfold drawWithOption
  split
  · exact Or.inl rfl
  split
  · exact Or.inr (Or.inl rfl)
  rcases hd : s.drawCard σ p with ⟨s₁, d⟩
  rcases d with _ | c
  · simp only []
    exact Or.inr (Or.inr (Or.inr trivial))
  · simp only []
    split
    · exact Or.inr (Or.inr (Or.inl rfl))
    · exact Or.inr (Or.inr (Or.inr rfl))

/-! ## Draw-layer lemmas -/

theorem getD_set_self (l : List (List Card)) (i : Nat) (x : List Card)
    (h : i < l.length) : (l.set i x).getD i [] = x := by
  induction l generalizing i with
  | nil => simp at h
  | cons hd tl ih =>
    cases i with
    | zero => rfl
    | succ j => exact ih j (by simpa using h)

theorem reshuffleDeck_eq (σ : List Card → List Card) (s : UnoGameState)
    (t : Card) (ht : s.discard_pile.getLast? = some t)
    (hd1 : 1 < s.discard_pile.length) :
    s.reshuffleDeck σ =
      { s with deck := σ s.discard_pile.dropLast, discard_pile := [t] } := by
  unfold reshuffleDeck popLast
  rw [ht, if_pos hd1]

theorem reshuffleDeck_of_small (σ : List Card → List Card)
    (s : UnoGameState) (h : ¬ 1 < s.discard_pile.length) :
    s.reshuffleDeck σ = s := by
  unfold reshuffleDeck
  rw [if_neg h]

theorem reshuffleDeck_fields (σ : List Card → List Card) (s : UnoGameState) :
    (s.reshuffleDeck σ).pending_color = s.pending_color ∧
    (s.reshuffleDeck σ).game_over = s.game_over ∧
    (s.reshuffleDeck σ).player_hands = s.player_hands ∧
    (s.reshuffleDeck σ).current_player = s.current_player ∧
    (s.reshuffleDeck σ).direction = s.direction ∧
    (s.reshuffleDeck σ).num_players = s.num_players ∧
    (s.reshuffleDeck σ).turn_count = s.turn_count ∧
    (s.reshuffleDeck σ).draw_pile_count = s.draw_pile_count ∧
    (s.reshuffleDeck σ).last_drawn_card = s.last_drawn_card ∧
    (s.reshuffleDeck σ).can_play_drawn_card = s.can_play_drawn_card ∧
    (s.reshuffleDeck σ).winner = s.winner ∧
    (s.discard_pile ≠ [] → (s.reshuffleDeck σ).discard_pile ≠ []) := by
  unfold reshuffleDeck popLast
  split
  · split <;> simp
  · simp

theorem reshuffleDeck_idem (σ : List Card → List Card) (s : UnoGameState) :
    (s.reshuffleDeck σ).reshuffleDeck σ = s.reshuffleDeck σ := by
  by_cases h : 1 < s.discard_pile.length
  · have hne : s.discard_pile ≠ [] := by
      intro hnil
      rw [hnil] at h
      simp at h
    obtain ⟨t, ht⟩ : ∃ t, s.discard_pile.getLast? = some t := by
      cases hg : s.discard_pile.getLast? with
      | none => exact absurd (List.getLast?_eq_none_iff.mp hg) hne
      | some t => exact ⟨t, rfl⟩
    rw [reshuffleDeck_eq σ s t ht h]
    exact reshuffleDeck_of_small σ _ (by simp)
  · rw [reshuffleDeck_of_small σ s h, reshuffleDeck_of_small σ s h]

theorem drawCard_eq_of_empty (σ : List Card → List Card) (s : UnoGameState)
    (p : Int) (hdk : s.deck = []) :
    s.drawCard σ p = (s.reshuffleDeck σ).drawCard σ p := by
  unfold drawCard
  rw [if_pos (by simp [hdk])]
  by_cases h2 : (s.reshuffleDeck σ).deck.isEmpty
  · rw [if_pos h2, reshuffleDeck_idem]
  · rw [if_neg h2]

theorem drawCard_none (σ : List Card → List Card) (t : UnoGameState)
    (p : Int) (h : t.deck = []) (h2 : t.reshuffleDeck σ = t) :
    t.drawCard σ p = (t, none) := by
  unfold drawCard
  rw [if_pos (by simp [h]), h2]
  simp [popLast, h]

theorem drawCard_fields (σ : List Card → List Card) (s : UnoGameState)
    (p : Int) :
    (s.drawCard σ p).1.pending_color = s.pending_color ∧
    (s.drawCard σ p).1.game_over = s.game_over ∧
    (s.drawCard σ p).1.current_player = s.current_player ∧
    (s.drawCard σ p).1.direction = s.direction ∧
    (s.drawCard σ p).1.num_players = s.num_players ∧
    (s.drawCard σ p).1.turn_count = s.turn_count ∧
    (s.drawCard σ p).1.draw_pile_count = s.draw_pile_count ∧
    (s.drawCard σ p).1.last_drawn_card = s.last_drawn_card ∧
    (s.drawCard σ p).1.can_play_drawn_card = s.can_play_drawn_card ∧
    (s.drawCard σ p).1.winner = s.winner ∧
    (s.drawCard σ p).1.player_hands.length = s.player_hands.length ∧
    (s.discard_pile ≠ [] → (s.drawCard σ p).1.discard_pile ≠ []) := by
  have main : ∀ t : UnoGameState, t.deck ≠ [] →
      (t.drawCard σ p).1.pending_color = t.pending_color ∧
      (t.drawCard σ p).1.game_over = t.game_over ∧
      (t.drawCard σ p).1.current_player = t.current_player ∧
      (t.drawCard σ p).1.direction = t.direction ∧
      (t.drawCard σ p).1.num_players = t.num_players ∧
      (t.drawCard σ p).1.turn_count = t.turn_count ∧
      (t.drawCard σ p).1.draw_pile_count = t.draw_pile_count ∧
      (t.drawCard σ p).1.last_drawn_card = t.last_drawn_card ∧
      (t.drawCard σ p).1.can_play_drawn_card = t.can_play_drawn_card ∧
      (t.drawCard σ p).1.winner = t.winner ∧
      (t.drawCard σ p).1.player_hands.length = t.player_hands.length ∧
      (t.drawCard σ p).1.discard_pile = t.discard_pile := by
    intro t hne
    obtain ⟨c, hc⟩ : ∃ c, t.deck.getLast? = some c := by
      cases hg : t.deck.getLast? with
      | none => exact absurd (List.getLast?_eq_none_iff.mp hg) hne
      | some c => exact ⟨c, rfl⟩
    rw [drawCard_eq_of_nonempty σ t p c hc]
    simp [setHand]
  by_cases hdk : s.deck = []
  · rw [drawCard_eq_of_empty σ s p hdk]
    obtain ⟨f1, f2, f3, f4, f5, f6, f7, f8, f9, f10, f11, f12⟩ :=
      reshuffleDeck_fields σ s
    by_cases h2 : (s.reshuffleDeck σ).deck = []
    · rw [drawCard_none σ _ p h2 (reshuffleDeck_idem σ s)]
      refine ⟨f1, f2, f4, f5, f6, f7, f8, f9, f10, f11, by rw [f3], f12⟩
    · obtain ⟨g1, g2, g3, g4, g5, g6, g7, g8, g9, g10, g11, g12⟩ :=
        main (s.reshuffleDeck σ) h2
      refine ⟨g1.trans f1, g2.trans f2, g3.trans f4, g4.trans f5,
        g5.trans f6, g6.trans f7, g7.trans f8, g8.trans f9, g9.trans f10,
        g10.trans f11, by rw [g11, f3], fun hd => by rw [g12]; exact f12 hd⟩
  · obtain ⟨g1, g2, g3, g4, g5, g6, g7, g8, g9, g10, g11, g12⟩ := main s hdk
    exact ⟨g1, g2, g3, g4, g5, g6, g7, g8, g9, g10, g11,
      fun hd => g12 ▸ hd⟩

theorem drawCard_chain_step (σ : List Card → List Card)
    (hσ : ∀ l, (σ l).Perm l) (s : UnoGameState) (p : Int)
    (hp : p.toNat < s.player_hands.length) (h : 1 ≤ availCards s) :
    ((s.drawCard σ p).1.hand p).length = (s.hand p).length + 1 ∧
    availCards (s.drawCard σ p).1 = availCards s - 1 := by
  have main : ∀ t : UnoGameState, t.deck ≠ [] →
      p.toNat < t.player_hands.length →
      ((t.drawCard σ p).1.hand p).length = (t.hand p).length + 1 ∧
      availCards (t.drawCard σ p).1 = availCards t - 1 := by
    intro t hne hpt
    obtain ⟨c, hc⟩ : ∃ c, t.deck.getLast? = some c := by
      cases hg : t.deck.getLast? with
      | none => exact absurd (List.getLast?_eq_none_iff.mp hg) hne
      | some c => exact ⟨c, rfl⟩
    have hlen : 0 < t.deck.length := List.length_pos.mpr hne
    rw [drawCard_eq_of_nonempty σ t p c hc]
    constructor
    · simp only [hand, setHand]
      rw [getD_set_self _ _ _ hpt]
      simp [hand]
    · unfold availCards
      simp only [setHand, List.length_dropLast]
      omega
  by_cases hdk : s.deck = []
  · have hd1 : 1 < s.discard_pile.length := by
      unfold availCards at h
      rw [hdk] at h
      simp at h
      omega
    have hne : s.discard_pile ≠ [] := by
      intro hnil
      rw [hnil] at hd1
      simp at hd1
    obtain ⟨t0, ht0⟩ : ∃ t0, s.discard_pile.getLast? = some t0 := by
      cases hg : s.discard_pile.getLast? with
      | none => exact absurd (List.getLast?_eq_none_iff.mp hg) hne
      | some t0 => exact ⟨t0, rfl⟩
    rw [drawCard_eq_of_empty σ s p hdk]
    rw [reshuffleDeck_eq σ s t0 ht0 hd1]
    have hlen2 : (σ s.discard_pile.dropLast).length =
        s.discard_pile.length - 1 := by
      rw [(hσ _).length_eq]
      simp
    have hne2 : (σ s.discard_pile.dropLast) ≠ [] := by
      intro hnil
      rw [hnil] at hlen2
      simp at hlen2
      omega
    obtain ⟨hg1, hg2⟩ := main
      { s with deck := σ s.discard_pile.dropLast, discard_pile := [t0] }
      (by simpa using hne2) (by simpa using hp)
    refine ⟨by simpa [hand] using hg1, ?_⟩
    rw [hg2]
    unfold availCards
    simp only [hlen2, hdk]
    simp
  · exact main s hdk hp

theorem drawN_chain (σ : List Card → List Card)
    (hσ : ∀ l, (σ l).Perm l) (p : Int) :
    ∀ (k : Nat) (s : UnoGameState), p.toNat < s.player_hands.length →
      k ≤ availCards s →
      ((drawN σ s p k).hand p).length = (s.hand p).length + k ∧
      (drawN σ s p k).player_hands.length = s.player_hands.length ∧
      (drawN σ s p k).current_player = s.current_player ∧
      (drawN σ s p k).direction = s.direction ∧
      (drawN σ s p k).num_players = s.num_players ∧
      (drawN σ s p k).turn_count = s.turn_count ∧
      (drawN σ s p k).draw_pile_count = s.draw_pile_count ∧
      (drawN σ s p k).game_over = s.game_over ∧
      (drawN σ s p k).pending_color = s.pending_color := by
  intro k
  induction k with
  | zero => intro s _ _; simp [drawN]
  | succ j ih =>
    intro s hp hk
    obtain ⟨hstep1, hstep2⟩ := drawCard_chain_step σ hσ s p hp (by omega)
    obtain ⟨f1, f2, f3, f4, f5, f6, f7, f8, f9, f10, f11, f12⟩ :=
      drawCard_fields σ s p
    obtain ⟨i1, i2, i3, i4, i5, i6, i7, i8, i9⟩ :=
      ih (s.drawCard σ p).1 (by rw [f11]; exact hp) (by omega)
    refine ⟨?_, ?_, ?_, ?_, ?_, ?_, ?_, ?_, ?_⟩ <;>
      simp only [drawN] <;>
      first
        | (rw [i1, hstep1]; omega)
        | rw [i2, f11]
        | rw [i3, f3]
        | rw [i4, f4]
        | rw [i5, f5]
        | rw [i6, f6]
        | rw [i7, f7]
        | rw [i8, f2]
        | rw [i9, f1]

/-- C7 (confirmed): chain accumulation and atomic consumption.  Every
successful play through `apply_action` or `play_drawn_card` adds 2 to
`pending_draw_count` for a DRAW_TWO and 4 for a WILD_DRAW_FOUR (and 0
otherwise), so chained plays accumulate; and `draw_with_option` under an
active chain of k with at least k cards available across deck and
reshufflable discard grows the player's hand by exactly k, resets the
chain to 0, advances the turn at once and returns (absent, not-playable).
-/
theorem claim_C7 :
    (∀ (σ : List Card → List Card) (s : UnoGameState) (p : Int) (c : Card)
      col s', applyAction σ s p "play" (some c) col = some (s', true) →
      s'.draw_pile_count = s.draw_pile_count +
        (match c.type with
         | CardType.DRAW_TWO => 2
         | CardType.WILD_DRAW_FOUR => 4
         | _ => 0)) ∧
    (∀ (s : UnoGameState) (p : Int) col s' (c : Card),
      playDrawnCard s p col = some (s', true) → s.last_drawn_card = some c →
      s'.draw_pile_count = s.draw_pile_count +
        (match c.type with
         | CardType.DRAW_TWO => 2
         | CardType.WILD_DRAW_FOUR => 4
         | _ => 0)) ∧
    (∀ (σ : List Card → List Card) (s : UnoGameState) (p : Int),
      (∀ l, (σ l).Perm l) → p = s.current_player →
      p.toNat < s.player_hands.length → 0 < s.draw_pile_count →
      s.draw_pile_count ≤ availCards s →
      (drawWithOption σ s p).2 = (none, false) ∧
      (((drawWithOption σ s p).1).hand p).length =
        (s.hand p).length + s.draw_pile_count ∧
      ((drawWithOption σ s p).1).draw_pile_count = 0 ∧
      ((drawWithOption σ s p).1).current_player =
        (s.current_player + s.direction) % (s.num_players : Int) ∧
      ((drawWithOption σ s p).1).turn_count = s.turn_count + 1) := by
  refine ⟨?_, ?_, ?_⟩
  · intro σ s p c col s' h
    rcases applyAction_cases σ s p "play" (some c) col s' true h with
      ⟨hb, _⟩ | ⟨_, hd, _⟩ | ⟨_, c', s₀, s₂, hc, hs₀, hcm, hs'⟩
    · exact absurd hb (by simp)
    · exact absurd hd (by simp)
    · injection hc with hc'
      subst hc'
      have h₀ : s₀.draw_pile_count = s.draw_pile_count := by
        rcases hs₀ with rfl | ⟨col', _, _, _, rfl⟩
        · rfl
        · rfl
      have h₂ := (commitCard_spec s₀ p c s₂ hcm).2.2.2.2.2.2.2.2.2.2.2.2.2
      rcases hs' with rfl | rfl
      · simp [h₂, h₀]
      · rw [(advanceTurnWithSkip_fields s₂).2.2.2.1, h₂, h₀]
  · intro s p col s' c h hlast
    rcases playDrawnCard_cases s p col s' true h with
      ⟨hb, _⟩ | ⟨_, c', s₀, s₂, hc, hs₀, hcm, hs'⟩
    · exact absurd hb (by simp)
    · rw [hlast] at hc
      injection hc with hc'
      subst hc'
      have h₀ : s₀.draw_pile_count = s.draw_pile_count := by
        rcases hs₀ with rfl | ⟨col', _, _, _, rfl⟩
        · rfl
        · rfl
      have h₂ := (commitCard_spec s₀ p c s₂ hcm).2.2.2.2.2.2.2.2.2.2.2.2.2
      rcases hs' with rfl | rfl
      · simp [h₂, h₀]
      · simp [(advanceTurnWithSkip_fields s₂).2.2.2.1, h₂, h₀]
  · intro σ s p hσ hp hlen hpos havail
    unfold drawWithOption
    rw [if_neg (by simp [hp]), if_pos hpos]
    obtain ⟨d1, d2, d3, d4, d5, d6, d7, d8, d9⟩ :=
      drawN_chain σ hσ p s.draw_pile_count s hlen havail
    refine ⟨rfl, ?_, rfl, ?_, ?_⟩
    · simpa [advanceTurn, hand] using d1
    · simp [advanceTurn, d3, d4, d5]
    · simp [advanceTurn, d6]

/-- C7 witness: a DRAW_TWO play, a WILD_DRAW_FOUR play, a drawn-card
DRAW_TWO play, and the atomic consumption of a chain of 2 that crosses a
reshuffle, all at concrete states. -/
theorem claim_C7_witness :
    (applyAction id sPlayD2 0 "play" (some cRedDrawTwoW) none =
        some (sPlayD2After, true) ∧
      sPlayD2After.draw_pile_count = sPlayD2.draw_pile_count + 2) ∧
    (applyAction id sPlayW4 0 "play" (some cRedWildFourW)
        (some Color.BLUE) = some (sPlayW4After, true) ∧
      sPlayW4After.draw_pile_count = sPlayW4.draw_pile_count + 4) ∧
    (playDrawnCard sDrawnD2 0 none = some (sDrawnD2After, true) ∧
      sDrawnD2After.draw_pile_count = sDrawnD2.draw_pile_count + 2) ∧
    ((drawWithOption id sChainDraw 1).2 = (none, false) ∧
      ((drawWithOption id sChainDraw 1).1.hand 1).length =
        (sChainDraw.hand 1).length + sChainDraw.draw_pile_count ∧
      (drawWithOption id sChainDraw 1).1.draw_pile_count = 0 ∧
      (drawWithOption id sChainDraw 1).1.current_player =
        (sChainDraw.current_player + sChainDraw.direction) %
          (sChainDraw.num_players : Int) ∧
      (drawWithOption id sChainDraw 1).1.turn_count =
        sChainDraw.turn_count + 1) :=
  ⟨⟨by decide,
    claim_C7.1 id sPlayD2 0 cRedDrawTwoW none sPlayD2After (by decide)⟩,
   ⟨by decide,
    claim_C7.1 id sPlayW4 0 cRedWildFourW (some Color.BLUE) sPlayW4After
      (by decide)⟩,
   ⟨by decide,
    claim_C7.2.1 sDrawnD2 0 none sDrawnD2After cRedDrawTwoW (by decide)
      (by decide)⟩,
   claim_C7.2.2 id sChainDraw 1 (fun l => List.Perm.refl l) (by decide)
     (by decide) (by decide) (by decide)⟩

/-! ## Initialization lemmas -/

theorem sum_length_set (l : List (List Card)) (i : Nat) (c : Card)
    (h : i < l.length) :
    ((l.set i (l.getD i [] ++ [c])).map List.length).sum =
      (l.map List.length).sum + 1 := by
  induction l generalizing i with
  | nil => simp at h
  | cons hd tl ih =>
    cases i with
    | zero => simp [List.set]; omega
    | succ j =>
      have := ih j (by simpa using h)
      simp only [List.set, List.getD_cons_succ, List.map_cons, List.sum_cons]
      omega

theorem deal_foldl (ps : List Nat) :
    ∀ (hands : List (List Card)) (deck : List Card),
      (∀ q ∈ ps, q < hands.length) → ps.length ≤ deck.length →
      ((ps.foldl dealStep (hands, deck)).2.length =
          deck.length - ps.length ∧
        (((ps.foldl dealStep (hands, deck)).1.map List.length).sum =
          (hands.map List.length).sum + ps.length) ∧
        (ps.foldl dealStep (hands, deck)).1.length = hands.length ∧
        (ps.foldl dealStep (hands, deck)).2.Sublist deck) := by
  induction ps with
  | nil => intro hands deck _ _; simp
  | cons q qs ih =>
    intro hands deck hq hlen
    have hne : deck ≠ [] := by
      intro hnil
      rw [hnil] at hlen
      simp at hlen
    obtain ⟨c, hc⟩ : ∃ c, deck.getLast? = some c := by
      cases hg : deck.getLast? with
      | none => exact absurd (List.getLast?_eq_none_iff.mp hg) hne
      | some c => exact ⟨c, rfl⟩
    have hstep : dealStep (hands, deck) q =
        (hands.set q (hands.getD q [] ++ [c]), deck.dropLast) := by
      unfold dealStep popLast
      rw [hc]
    have hdl : deck.dropLast.length = deck.length - 1 := by simp
    have hlen1 : 0 < deck.length := List.length_pos.mpr hne
    obtain ⟨e1, e2, e3, e4⟩ := ih (hands.set q (hands.getD q [] ++ [c]))
      deck.dropLast
      (by
        intro r hr
        rw [List.length_set]
        exact hq r (List.mem_cons_of_mem _ hr))
      (by
        rw [hdl]
        have := hlen
        simp at this
        omega)
    rw [List.foldl_cons, hstep]
    have hql : q < hands.length := hq q (List.mem_cons_self q qs)
    have hlen' : qs.length + 1 ≤ deck.length := by simpa using hlen
    refine ⟨?_, ?_, ?_, ?_⟩
    · rw [e1, hdl]
      simp only [List.length_cons]
      omega
    · rw [e2, sum_length_set hands q c hql]
      simp only [List.length_cons]
      omega
    · rw [e3, List.length_set]
    · exact e4.trans (List.dropLast_sublist deck)

theorem initLoop_of_good (fuel : Nat) (top : Card) (deck : List Card)
    (h : badStart top = false) : initLoop fuel top deck = (top, deck) := by
  cases fuel with
  | zero => rfl
  | succ f =>
    unfold initLoop
    rw [if_neg (by simp [h])]

theorem initLoop_perm (fuel : Nat) :
    ∀ (top : Card) (deck : List Card),
      ((initLoop fuel top deck).1 :: (initLoop fuel top deck).2).Perm
        (top :: deck) ∧
      (initLoop fuel top deck).2.length = deck.length := by
  induction fuel with
  | zero => intro top deck; simp [initLoop]
  | succ f ih =>
    intro top deck
    unfold initLoop
    split
    · next hcond =>
      have hne : deck ≠ [] := by
        intro hnil
        rw [hnil] at hcond
        simp at hcond
      have hne2 : (top :: deck) ≠ [] := by simp
      obtain ⟨t', ht'⟩ : ∃ t', (top :: deck).getLast? = some t' := by
        cases hg : (top :: deck).getLast? with
        | none => exact absurd (List.getLast?_eq_none_iff.mp hg) hne2
        | some t' => exact ⟨t', rfl⟩
      have hpop : popLast (top :: deck) =
          some (t', (top :: deck).dropLast) := by
        unfold popLast
        rw [ht']
      rw [hpop]
      simp only []
      obtain ⟨p1, p2⟩ := ih t' (top :: deck).dropLast
      have hsplit : (top :: deck).dropLast ++ [t'] = top :: deck :=
        List.dropLast_append_getLast? t' ht'
      have hp3 : (t' :: (top :: deck).dropLast).Perm (top :: deck) := by
        have h1 := (List.perm_append_singleton t' (top :: deck).dropLast).symm
        rw [hsplit] at h1
        exact h1
      refine ⟨p1.trans hp3, ?_⟩
      rw [p2]
      have : (top :: deck).dropLast.length = deck.length := by simp
      rw [this]
    · exact ⟨List.Perm.refl _, rfl⟩

theorem dropLast_reverse_eq (l : List Card) (hl : l ≠ []) :
    l.dropLast.reverse = l.reverse.tail := by
  obtain ⟨a, ha⟩ : ∃ a, l.getLast? = some a := by
    cases hg : l.getLast? with
    | none => exact absurd (List.getLast?_eq_none_iff.mp hg) hl
    | some a => exact ⟨a, rfl⟩
  conv_rhs => rw [← List.dropLast_append_getLast? a ha]
  rw [List.reverse_append]
  simp

theorem initLoop_good (u : List Card) :
    ∀ (fuel : Nat) (top : Card) (deck : List Card) (g : Card)
      (w : List Card),
      badStart g = false → deck.reverse = u ++ g :: w →
      (∀ x ∈ u, badStart x = true) → 1 < deck.length →
      u.length + 1 ≤ fuel →
      badStart (initLoop fuel top deck).1 = false := by
  induction u with
  | nil =>
    intro fuel top deck g w hg hrev hu hlen hfuel
    by_cases hbad : badStart top = true
    · cases fuel with
      | zero => omega
      | succ f =>
        unfold initLoop
        rw [if_pos (by exact ⟨hbad, hlen⟩)]
        have hne : deck ≠ [] := by
          intro hnil
          rw [hnil] at hlen
          simp at hlen
        have hgl : (top :: deck).getLast? = some g := by
          rw [List.getLast?_eq_head?_reverse]
          simp only [List.reverse_cons]
          rw [hrev]
          simp
        have hpop : popLast (top :: deck) =
            some (g, (top :: deck).dropLast) := by
          unfold popLast
          rw [hgl]
        rw [hpop]
        simp only []
        rw [initLoop_of_good f g _ hg]
        exact hg
    · rw [initLoop_of_good fuel top deck (by simpa using hbad)]
      simpa using hbad
  | cons x u' ih =>
    intro fuel top deck g w hg hrev hu hlen hfuel
    by_cases hbad : badStart top = true
    · cases fuel with
      | zero => simp at hfuel
      | succ f =>
        unfold initLoop
        rw [if_pos (by exact ⟨hbad, hlen⟩)]
        have hne : deck ≠ [] := by
          intro hnil
          rw [hnil] at hlen
          simp at hlen
        have hgl : (top :: deck).getLast? = some x := by
          rw [List.getLast?_eq_head?_reverse]
          simp only [List.reverse_cons]
          rw [hrev]
          simp
        have hpop : popLast (top :: deck) =
            some (x, (top :: deck).dropLast) := by
          unfold popLast
          rw [hgl]
        rw [hpop]
        simp only []
        have hdl : (top :: deck).dropLast = top :: deck.dropLast := by
          rcases deck with _ | ⟨d0, drest⟩
          · exact absurd rfl hne
          · rfl
        have hrev2 : (top :: deck.dropLast).reverse =
            u' ++ g :: (w ++ [top]) := by
          simp only [List.reverse_cons]
          rw [dropLast_reverse_eq deck hne, hrev]
          simp
        have hlen2 : 1 < (top :: deck.dropLast).length := by
          simp only [List.length_cons, List.length_dropLast]
          omega
        rw [hdl]
        exact ih f x (top :: deck.dropLast) g (w ++ [top]) hg hrev2
          (fun y hy => hu y (List.mem_cons_of_mem x hy)) hlen2
          (by simp at hfuel; omega)
    · rw [initLoop_of_good fuel top deck (by simpa using hbad)]
      simpa using hbad

theorem dropWhile_head_not (p : Card → Bool) :
    ∀ (l : List Card) (g : Card) (w : List Card),
      l.dropWhile p = g :: w → p g = false := by
  intro l
  induction l with
  | nil => intro g w h; simp at h
  | cons a l ih =>
    intro g w h
    rw [List.dropWhile_cons] at h
    split at h
    · exact ih g w h
    · injection h with h1 _
      subst h1
      simp_all

/-- C8 (confirmed): for every shuffle and every player count N in [2,4],
after `initialize_game` on a fresh N-player state the hands together hold
exactly 7N cards, the discard pile holds exactly one card that is neither
wild-colored nor a SKIP/REVERSE/DRAW_TWO, and the deck holds
108 - 7N - 1 cards; the freshly built deck has exactly 108 cards. -/
theorem claim_C8 (σ : List Card → List Card) (hσ : ∀ l, (σ l).Perm l)
    (n : Nat) (h2 : 2 ≤ n) (h4 : n ≤ 4) :
    createDeck.length = 108 ∧
    (((initializeGame σ (initState n)).player_hands.map List.length).sum =
      7 * n) ∧
    (initializeGame σ (initState n)).discard_pile.length = 1 ∧
    (∀ c ∈ (initializeGame σ (initState n)).discard_pile,
      c.color ≠ Color.WILD ∧ c.type ≠ CardType.SKIP ∧
      c.type ≠ CardType.REVERSE ∧ c.type ≠ CardType.DRAW_TWO) ∧
    (initializeGame σ (initState n)).deck.length = 108 - 7 * n - 1 := by
  have hcdl : createDeck.length = 108 := by decide
  have hσlen : (σ createDeck).length = 108 := by
    rw [(hσ createDeck).length_eq, hcdl]
  have hbadcount : createDeck.countP (fun c => badStart c) = 32 := by decide
  have hdl : (dealOrder n).length = 7 * n := by
    unfold dealOrder
    rw [List.length_flatten]
    simp [List.map_replicate, List.sum_replicate]
    omega
  have hdm : ∀ q ∈ dealOrder n, q < n := by
    intro q hq
    unfold dealOrder at hq
    rw [List.mem_flatten] at hq
    obtain ⟨l, hl, hql⟩ := hq
    rw [List.eq_of_mem_replicate hl] at hql
    exact List.mem_range.mp hql
  obtain ⟨e1, e2, e3, e4⟩ := deal_foldl (dealOrder n)
    (List.replicate n []) (σ createDeck)
    (by simpa using hdm)
    (by rw [hdl, hσlen]; omega)
  rw [hdl, hσlen] at e1
  rw [hdl] at e2
  unfold initializeGame
  simp only [initState]
  rcases hp2 : (dealOrder n).foldl dealStep
      (List.replicate n [], σ createDeck) with ⟨hands₁, d₁⟩
  rw [hp2] at e1 e2 e3 e4
  simp only [] at e1 e2 e3 e4 ⊢
  have hd₁ : d₁ ≠ [] := by
    intro hnil
    rw [hnil] at e1
    simp at e1
    omega
  obtain ⟨t0, ht0⟩ : ∃ t0, d₁.getLast? = some t0 := by
    cases hg : d₁.getLast? with
    | none => exact absurd (List.getLast?_eq_none_iff.mp hg) hd₁
    | some t0 => exact ⟨t0, rfl⟩
  have hpop : popLast d₁ = some (t0, d₁.dropLast) := by
    unfold popLast
    rw [ht0]
  rw [hpop]
  simp only []
  have hd₀len : d₁.dropLast.length = 107 - 7 * n := by
    simp [e1]
    omega
  have hcount : d₁.dropLast.countP (fun c => badStart c) ≤ 32 := by
    have hsub : d₁.dropLast.Sublist (σ createDeck) :=
      (List.dropLast_sublist d₁).trans e4
    have := hsub.countP_le (fun c => badStart c)
    rw [(hσ createDeck).countP_eq, hbadcount] at this
    exact this
  obtain ⟨g, hgmem, hggood⟩ : ∃ g ∈ d₁.dropLast, badStart g = false := by
    by_contra hall
    push_neg at hall
    have : ∀ c ∈ d₁.dropLast, badStart c = true := by
      intro c hc
      have := hall c hc
      simpa using this
    have hfull := (List.countP_eq_length
        (p := fun c => badStart c)).mpr (by
      intro a ha
      simpa using this a ha)
    rw [hd₀len] at hfull
    omega
  have hgrev : g ∈ d₁.dropLast.reverse := by simpa using hgmem
  set r := d₁.dropLast.reverse with hr
  have hsplit := List.takeWhile_append_dropWhile
    (p := fun c => badStart c) (l := r)
  have hrest : r.dropWhile (fun c => badStart c) ≠ [] := by
    intro hnil
    rw [hnil, List.append_nil] at hsplit
    have : badStart g = true := List.mem_takeWhile_imp (hsplit.symm ▸ hgrev)
    rw [hggood] at this
    exact absurd this (by simp)
  rcases hdw : r.dropWhile (fun c => badStart c) with _ | ⟨g', w⟩
  · exact absurd hdw hrest
  have hg' : badStart g' = false := dropWhile_head_not _ r g' w hdw
  have hrevsplit : r = r.takeWhile (fun c => badStart c) ++ g' :: w := by
    rw [← hdw]
    exact hsplit.symm
  have hulen : (r.takeWhile (fun c => badStart c)).length + 1 ≤
      d₁.dropLast.length := by
    have : r.length = (r.takeWhile (fun c => badStart c)).length +
        (g' :: w).length := by
      conv_lhs => rw [hrevsplit]
      simp
    have hrl : r.length = d₁.dropLast.length := by simp [hr]
    simp only [List.length_cons] at this
    omega
  have hloopgood := initLoop_good (r.takeWhile (fun c => badStart c))
    d₁.dropLast.length t0 d₁.dropLast g' w hg' hrevsplit
    (fun x hx => List.mem_takeWhile_imp hx)
    (by rw [hd₀len]; omega) hulen
  obtain ⟨hperm, hlooplen⟩ := initLoop_perm d₁.dropLast.length t0 d₁.dropLast
  rcases hloop : initLoop d₁.dropLast.length t0 d₁.dropLast with ⟨t, d⟩
  rw [hloop] at hloopgood hperm hlooplen
  simp only [] at hloopgood hperm hlooplen ⊢
  refine ⟨hcdl, ?_, by simp, ?_, ?_⟩
  · simpa using e2
  · intro c hc
    simp at hc
    subst hc
    unfold badStart at hloopgood
    simp at hloopgood
    exact ⟨hloopgood.1, hloopgood.2.1, hloopgood.2.2.1, hloopgood.2.2.2⟩
  · show d.length = 108 - 7 * n - 1
    rw [hlooplen, hd₀len]
    omega

/-- C8 witness: the identity shuffle with 2 players. -/
theorem claim_C8_witness :
    ((∀ l : List Card, (id l).Perm l) ∧ 2 ≤ 2 ∧ 2 ≤ 4) ∧
    (createDeck.length = 108 ∧
      (((initializeGame id (initState 2)).player_hands.map
          List.length).sum = 7 * 2) ∧
      (initializeGame id (initState 2)).discard_pile.length = 1 ∧
      (∀ c ∈ (initializeGame id (initState 2)).discard_pile,
        c.color ≠ Color.WILD ∧ c.type ≠ CardType.SKIP ∧
        c.type ≠ CardType.REVERSE ∧ c.type ≠ CardType.DRAW_TWO) ∧
      (initializeGame id (initState 2)).deck.length = 108 - 7 * 2 - 1) :=
  ⟨⟨fun l => List.Perm.refl l, by decide, by decide⟩,
   claim_C8 id (fun l => List.Perm.refl l) 2 (by decide) (by decide)⟩

/-! ## Card-conservation lemmas -/

theorem handsSum_set (l : List (List Card)) :
    ∀ (i : Nat) (x : List Card), i < l.length →
      ((l.set i x).map Multiset.ofList).sum + Multiset.ofList (l.getD i []) =
        (l.map Multiset.ofList).sum + Multiset.ofList x := by
  induction l with
  | nil => intro i x h; simp at h
  | cons hd tl ih =>
    intro i x h
    cases i with
    | zero =>
      simp only [List.set, List.getD_cons_zero, List.map_cons, List.sum_cons]
      abel
    | succ j =>
      have hstep := ih j x (by simpa using h)
      simp only [List.set, List.getD_cons_succ, List.map_cons, List.sum_cons]
      rw [add_assoc, hstep, add_assoc]

theorem getD_ne_nil_lt (l : List (List Card)) (i : Nat)
    (h : l.getD i [] ≠ []) : i < l.length := by
  by_contra hge
  push_neg at hge
  rw [List.getD_eq_default] at h
  · exact h rfl
  · omega

theorem removeFirst_perm :
    ∀ (l : List Card) (c : Card) (h2 : List Card),
      removeFirst l c = some h2 →
      Multiset.ofList l = c ::ₘ Multiset.ofList h2 := by
  intro l
  induction l with
  | nil => intro c h2 h; simp [removeFirst] at h
  | cons x xs ih =>
    intro c h2 h
    unfold removeFirst at h
    split at h
    · next heq =>
      injection h with h1
      subst h1 heq
      rfl
    · rcases hr : removeFirst xs c with _ | ys
      · rw [hr] at h
        simp at h
      · rw [hr] at h
        simp at h
        subst h
        have hxs : xs.Perm (c :: ys) := by
          rw [← Multiset.coe_eq_coe]
          exact ih c ys hr
        exact Multiset.coe_eq_coe.mpr
          ((hxs.cons x).trans (List.Perm.swap c x ys))

theorem allCards_reshuffle (σ : List Card → List Card)
    (hσ : ∀ l, (σ l).Perm l) (s : UnoGameState) (hdk : s.deck = []) :
    allCards (s.reshuffleDeck σ) = allCards s := by
  by_cases hd1 : 1 < s.discard_pile.length
  · have hne : s.discard_pile ≠ [] := by
      intro hnil
      rw [hnil] at hd1
      simp at hd1
    obtain ⟨t, ht⟩ : ∃ t, s.discard_pile.getLast? = some t := by
      cases hg : s.discard_pile.getLast? with
      | none => exact absurd (List.getLast?_eq_none_iff.mp hg) hne
      | some t => exact ⟨t, rfl⟩
    rw [reshuffleDeck_eq σ s t ht hd1]
    unfold allCards
    simp only []
    have h1 : Multiset.ofList (σ s.discard_pile.dropLast) =
        Multiset.ofList s.discard_pile.dropLast :=
      Multiset.coe_eq_coe.mpr (hσ _)
    have h2 : Multiset.ofList s.discard_pile.dropLast +
        Multiset.ofList [t] = Multiset.ofList s.discard_pile := by
      rw [Multiset.coe_add]
      exact congrArg Multiset.ofList (List.dropLast_append_getLast? t ht)
    rw [h1, h2, hdk]
    simp
  · rw [reshuffleDeck_of_small σ s hd1]

theorem allCards_drawCard (σ : List Card → List Card)
    (hσ : ∀ l, (σ l).Perm l) (s : UnoGameState) (p : Int)
    (hp : p.toNat < s.player_hands.length) :
    allCards (s.drawCard σ p).1 = allCards s := by
  have main : ∀ t : UnoGameState, t.deck ≠ [] →
      p.toNat < t.player_hands.length →
      allCards (t.drawCard σ p).1 = allCards t := by
    intro t hne hpt
    obtain ⟨c, hc⟩ : ∃ c, t.deck.getLast? = some c := by
      cases hg : t.deck.getLast? with
      | none => exact absurd (List.getLast?_eq_none_iff.mp hg) hne
      | some c => exact ⟨c, rfl⟩
    rw [drawCard_eq_of_nonempty σ t p c hc]
    unfold allCards
    simp only [setHand]
    have h1 : Multiset.ofList t.deck.dropLast + Multiset.ofList [c] =
        Multiset.ofList t.deck := by
      rw [Multiset.coe_add]
      exact congrArg Multiset.ofList (List.dropLast_append_getLast? c hc)
    have h2 := handsSum_set t.player_hands p.toNat (t.hand p ++ [c]) hpt
    have h3 : Multiset.ofList (t.hand p ++ [c]) =
        Multiset.ofList (t.hand p) + Multiset.ofList [c] :=
      (Multiset.coe_add _ _).symm
    rw [h3] at h2
    have hhand : t.player_hands.getD p.toNat [] = t.hand p := rfl
    rw [hhand] at h2
    have h4 : ((t.player_hands.set p.toNat (t.hand p ++ [c])).map
          Multiset.ofList).sum + Multiset.ofList (t.hand p) =
        ((t.player_hands.map Multiset.ofList).sum + Multiset.ofList [c]) +
          Multiset.ofList (t.hand p) := by
      rw [h2]
      abel
    have key := add_right_cancel h4
    rw [key, ← h1]
    abel
  by_cases hdk : s.deck = []
  · rw [drawCard_eq_of_empty σ s p hdk]
    have hrs := allCards_reshuffle σ hσ s hdk
    by_cases h2 : (s.reshuffleDeck σ).deck = []
    · rw [drawCard_none σ _ p h2 (reshuffleDeck_idem σ s)]
      exact hrs
    · rw [main (s.reshuffleDeck σ) h2
        (by rw [(reshuffleDeck_fields σ s).2.2.1]; exact hp)]
      exact hrs
  · exact main s hdk hp

theorem allCards_drawN (σ : List Card → List Card)
    (hσ : ∀ l, (σ l).Perm l) (p : Int) :
    ∀ (k : Nat) (s : UnoGameState), p.toNat < s.player_hands.length →
      allCards (drawN σ s p k) = allCards s := by
  intro k
  induction k with
  | zero => intro s _; rfl
  | succ j ih =>
    intro s hp
    have h1 := allCards_drawCard σ hσ s p hp
    have h2 := ih (s.drawCard σ p).1
      (by rw [(drawCard_fields σ s p).2.2.2.2.2.2.2.2.2.2.1]; exact hp)
    unfold drawN
    rw [h2, h1]

theorem allCards_advanceTurn (s : UnoGameState) :
    allCards s.advanceTurn = allCards s := rfl

theorem allCards_advanceTurnWithSkip (s : UnoGameState) :
    allCards s.advanceTurnWithSkip = allCards s := by
  obtain ⟨f1, f2, f3, _⟩ := advanceTurnWithSkip_fields s
  unfold allCards
  rw [f1, f2, f3]

theorem allCards_endTurnAfterDraw (s : UnoGameState) (p : Int) :
    allCards (s.endTurnAfterDraw p).1 = allCards s := by
  unfold endTurnAfterDraw
  split
  · rfl
  · rfl

theorem allCards_commit (s : UnoGameState) (p : Int) (c : Card)
    (s₂ : UnoGameState) (h : commitCard s p c = some s₂) :
    allCards s₂ = allCards s := by
  obtain ⟨⟨h2, hrm, hhands⟩, _, hdeck, hdisc, _⟩ := commitCard_spec s p c s₂ h
  have hin : p.toNat < s.player_hands.length := by
    apply getD_ne_nil_lt
    intro hnil
    have : removeFirst (s.hand p) c = none := by
      rw [show s.hand p = s.player_hands.getD p.toNat [] from rfl, hnil]
      rfl
    rw [this] at hrm
    exact absurd hrm (by simp)
  have hperm := removeFirst_perm (s.hand p) c h2 hrm
  unfold allCards
  rw [hdeck, hdisc, hhands]
  have hsum := handsSum_set s.player_hands p.toNat h2 hin
  have hhand : s.player_hands.getD p.toNat [] = s.hand p := rfl
  rw [hhand, hperm] at hsum
  have hdisc2 : Multiset.ofList (s.discard_pile ++ [c]) =
      Multiset.ofList s.discard_pile + Multiset.ofList [c] :=
    (Multiset.coe_add _ _).symm
  have hcons : (c ::ₘ Multiset.ofList h2) =
      Multiset.ofList [c] + Multiset.ofList h2 := by
    simp
  rw [hcons] at hsum
  have h5 : (((s.player_hands.set p.toNat h2).map Multiset.ofList).sum +
      Multiset.ofList [c]) + Multiset.ofList h2 =
      ((s.player_hands.map Multiset.ofList).sum) + Multiset.ofList h2 := by
    rw [← hsum]
    abel
  have h6 := add_right_cancel h5
  rw [hdisc2, ← h6]
  abel

theorem allCards_drawWithOption (σ : List Card → List Card)
    (hσ : ∀ l, (σ l).Perm l) (s : UnoGameState) (p : Int)
    (hb : s.current_player.toNat < s.player_hands.length) :
    allCards (drawWithOption σ s p).1 = allCards s := by
  unfold drawWithOption
  by_cases hp : p ≠ s.current_player
  · rw [if_pos hp]
  · rw [if_neg hp]
    push_neg at hp
    subst hp
    split
    · exact allCards_drawN σ hσ s.current_player s.draw_pile_count s hb
    · rcases hd : s.drawCard σ s.current_player with ⟨s₁, d⟩
      have hs₁ : allCards s₁ = allCards s := by
        have := allCards_drawCard σ hσ s s.current_player hb
        rw [hd] at this
        exact this
      simp only []
      rcases d with _ | c
      · exact hs₁
      · simp only []
        split
        · show allCards s₁ = allCards s
          exact hs₁
        · show allCards s₁ = allCards s
          exact hs₁

theorem allCards_playDrawnCard (s : UnoGameState) (p : Int)
    (col : Option Color) (s' : UnoGameState) (b : Bool)
    (h : playDrawnCard s p col = some (s', b)) :
    allCards s' = allCards s := by
  rcases playDrawnCard_cases s p col s' b h with
    ⟨_, rfl⟩ | ⟨_, c, s₀, s₂, _, hs₀, hcm, hs'⟩
  · rfl
  · have h₀ : allCards s₀ = allCards s := by
      rcases hs₀ with rfl | ⟨col', _, _, _, rfl⟩
      · rfl
      · rfl
    have h₂ := allCards_commit s₀ p c s₂ hcm
    rcases hs' with rfl | rfl
    · show allCards s₂ = allCards s
      rw [h₂, h₀]
    · show allCards s₂.advanceTurnWithSkip = allCards s
      rw [allCards_advanceTurnWithSkip, h₂, h₀]

theorem allCards_applyAction (σ : List Card → List Card)
    (hσ : ∀ l, (σ l).Perm l) (s : UnoGameState) (p : Int) (a : String)
    (card : Option Card) (col : Option Color) (s' : UnoGameState) (b : Bool)
    (hb : s.current_player.toNat < s.player_hands.length)
    (h : applyAction σ s p a card col = some (s', b)) :
    allCards s' = allCards s := by
  rcases applyAction_cases σ s p a card col s' b h with
    ⟨_, rfl⟩ | ⟨_, _, rfl⟩ | ⟨_, c, s₀, s₂, _, hs₀, hcm, hs'⟩
  · rfl
  · split
    · rw [allCards_endTurnAfterDraw, allCards_drawWithOption σ hσ s p hb]
    · rw [allCards_drawWithOption σ hσ s p hb]
  · have h₀ : allCards s₀ = allCards s := by
      rcases hs₀ with rfl | ⟨col', _, _, _, rfl⟩
      · rfl
      · rfl
    have h₂ := allCards_commit s₀ p c s₂ hcm
    rcases hs' with rfl | rfl
    · show allCards s₂ = allCards s
      rw [h₂, h₀]
    · rw [allCards_advanceTurnWithSkip, h₂, h₀]

/-- C9 (confirmed): card conservation.  Every public mutator — with a
genuine shuffle function and (for the drawing paths) the current player a
valid hand index, as guaranteed after `initialize_game` — preserves the
multiset union of deck, discard pile and all hands; and on an exhausted
deck a reshuffle moves exactly the discard pile minus its top card into
the deck, likewise conserving the card multiset. -/
theorem claim_C9 :
    (∀ (σ : List Card → List Card) (s : UnoGameState) (p : Int) a card col
      (s' : UnoGameState) (b : Bool), (∀ l, (σ l).Perm l) →
      s.current_player.toNat < s.player_hands.length →
      applyAction σ s p a card col = some (s', b) →
      allCards s' = allCards s) ∧
    (∀ (σ : List Card → List Card) (s : UnoGameState) (p : Int),
      (∀ l, (σ l).Perm l) →
      s.current_player.toNat < s.player_hands.length →
      allCards (drawWithOption σ s p).1 = allCards s) ∧
    (∀ (s : UnoGameState) (p : Int) col (s' : UnoGameState) (b : Bool),
      playDrawnCard s p col = some (s', b) → allCards s' = allCards s) ∧
    (∀ (s : UnoGameState) (p : Int),
      allCards (s.endTurnAfterDraw p).1 = allCards s) ∧
    (∀ (σ : List Card → List Card) (s : UnoGameState),
      (∀ l, (σ l).Perm l) → s.deck = [] → 1 < s.discard_pile.length →
      ∃ t, s.discard_pile.getLast? = some t ∧
        (s.reshuffleDeck σ).deck = σ s.discard_pile.dropLast ∧
        (s.reshuffleDeck σ).discard_pile = [t] ∧
        allCards (s.reshuffleDeck σ) = allCards s) := by
  refine ⟨?_, ?_, ?_, ?_, ?_⟩
  · intro σ s p a card col s' b hσ hb h
    exact allCards_applyAction σ hσ s p a card col s' b hb h
  · intro σ s p hσ hb
    exact allCards_drawWithOption σ hσ s p hb
  · intro s p col s' b h
    exact allCards_playDrawnCard s p col s' b h
  · intro s p
    exact allCards_endTurnAfterDraw s p
  · intro σ s hσ hdk hd1
    have hne : s.discard_pile ≠ [] := by
      intro hnil
      rw [hnil] at hd1
      simp at hd1
    obtain ⟨t, ht⟩ : ∃ t, s.discard_pile.getLast? = some t := by
      cases hg : s.discard_pile.getLast? with
      | none => exact absurd (List.getLast?_eq_none_iff.mp hg) hne
      | some t => exact ⟨t, rfl⟩
    refine ⟨t, ht, ?_, ?_, allCards_reshuffle σ hσ s hdk⟩
    · rw [reshuffleDeck_eq σ s t ht hd1]
    · rw [reshuffleDeck_eq σ s t ht hd1]

/-- C9 witness: conservation instantiated for a play, a chain draw that
crosses a reshuffle, a drawn-card play, an end-of-turn pass, and a bare
reshuffle of an exhausted deck. -/
theorem claim_C9_witness :
    (allCards sPlayD2After = allCards sPlayD2) ∧
    (allCards (drawWithOption id sChainDraw 1).1 = allCards sChainDraw) ∧
    (allCards sDrawnD2After = allCards sDrawnD2) ∧
    (allCards (sScenario.endTurnAfterDraw 0).1 = allCards sScenario) ∧
    (∃ t, sReshuffle.discard_pile.getLast? = some t ∧
      (sReshuffle.reshuffleDeck id).deck =
        id sReshuffle.discard_pile.dropLast ∧
      (sReshuffle.reshuffleDeck id).discard_pile = [t] ∧
      allCards (sReshuffle.reshuffleDeck id) = allCards sReshuffle) :=
  ⟨claim_C9.1 id sPlayD2 0 "play" (some cRedDrawTwoW) none sPlayD2After
     true (fun l => List.Perm.refl l) (by decide) (by decide),
   claim_C9.2.1 id sChainDraw 1 (fun l => List.Perm.refl l) (by decide),
   claim_C9.2.2.1 sDrawnD2 0 none sDrawnD2After true (by decide),
   claim_C9.2.2.2.1 sScenario 0,
   claim_C9.2.2.2.2 id sReshuffle (fun l => List.Perm.refl l) (by decide)
     (by decide)⟩

theorem advanceTurnWithSkip_pending_none (s : UnoGameState) (c : Card)
    (hlast : s.discard_pile.getLast? = some c)
    (hp : s.pending_color = none ∨
      ∃ pc, s.pending_color = some pc ∧ pc ≠ Color.WILD) :
    (s.advanceTurnWithSkip).pending_color = none := by
  unfold advanceTurnWithSkip getTopCard
  rcases hpc : s.pending_color with _ | pc
  · split <;> simp [hpc]
  · have hpcw : pc ≠ Color.WILD := by
      rcases hp with h | ⟨pc', h1, h2⟩
      · rw [hpc] at h
        simp at h
      · rw [hpc] at h1
        injection h1 with h1
        subst h1
        exact h2
    split <;>
    · simp only [hpc, hlast]
      by_cases hcw : c.color = Color.WILD
      · rw [if_pos ⟨hcw, hpcw⟩]
        simp [hpcw]
      · rw [if_neg (by simp [hcw])]
        simp [hcw]

theorem drawN_inv (σ : List Card → List Card) (p : Int) :
    ∀ (k : Nat) (s : UnoGameState),
      (drawN σ s p k).pending_color = s.pending_color ∧
      (drawN σ s p k).game_over = s.game_over ∧
      (s.discard_pile ≠ [] → (drawN σ s p k).discard_pile ≠ []) := by
  intro k
  induction k with
  | zero => intro s; exact ⟨rfl, rfl, fun h => h⟩
  | succ j ih =>
    intro s
    obtain ⟨f1, f2, f3, f4, f5, f6, f7, f8, f9, f10, f11, f12⟩ :=
      drawCard_fields σ s p
    obtain ⟨i1, i2, i3⟩ := ih (s.drawCard σ p).1
    refine ⟨?_, ?_, ?_⟩
    · simp only [drawN]
      rw [i1, f1]
    · simp only [drawN]
      rw [i2, f2]
    · intro h
      simp only [drawN]
      exact i3 (f12 h)

theorem stateInv_endTurn (s : UnoGameState) (p : Int) (h : StateInv s) :
    StateInv (s.endTurnAfterDraw p).1 := by
  unfold endTurnAfterDraw
  split
  · exact h
  · exact ⟨fun hgo => h.1 hgo, h.2⟩

theorem stateInv_drawWithOption (σ : List Card → List Card)
    (s : UnoGameState) (p : Int) (h : StateInv s) :
    StateInv (s.drawWithOption σ p).1 := by
  rcases drawWithOption_cases σ s p with hc | hc | hc | hc <;> rw [hc]
  · exact h
  · obtain ⟨d1, d2, d3⟩ := drawN_inv σ p s.draw_pile_count s
    refine ⟨fun hgo => ?_, d3 h.2⟩
    have hgo' : (drawN σ s p s.draw_pile_count).game_over = false := hgo
    rw [d2] at hgo'
    exact d1.trans (h.1 hgo')
  · obtain ⟨f1, f2, f3, f4, f5, f6, f7, f8, f9, f10, f11, f12⟩ :=
      drawCard_fields σ s p
    refine ⟨fun hgo => ?_, f12 h.2⟩
    have hgo' : (s.drawCard σ p).1.game_over = false := hgo
    rw [f2] at hgo'
    exact f1.trans (h.1 hgo')
  · obtain ⟨f1, f2, f3, f4, f5, f6, f7, f8, f9, f10, f11, f12⟩ :=
      drawCard_fields σ s p
    refine ⟨fun hgo => ?_, f12 h.2⟩
    have hgo' : (s.drawCard σ p).1.game_over = false := hgo
    rw [f2] at hgo'
    exact f1.trans (h.1 hgo')

theorem stateInv_afterPlay (s s₀ s₂ : UnoGameState) (p : Int) (c : Card)
    (h : StateInv s)
    (h₀ : s₀ = s ∨ ∃ col', col' ≠ Color.WILD ∧
      s₀ = { s with pending_color := some col' })
    (hcm : commitCard s₀ p c = some s₂) :
    StateInv s₂.advanceTurnWithSkip := by
  obtain ⟨-, f2, f3, f4, f5, f6, f7, f8, frest⟩ :=
    commitCard_spec s₀ p c s₂ hcm
  obtain ⟨a1, a2, a3, a4, a5, arest⟩ := advanceTurnWithSkip_fields s₂
  constructor
  · intro hgo
    apply advanceTurnWithSkip_pending_none s₂ c
    · rw [f4]
      exact List.getLast?_concat _
    · rcases h₀ with rfl | ⟨col', hcw, rfl⟩
      · left
        rw [f2]
        apply h.1
        rw [a5, f8] at hgo
        exact hgo
      · right
        refine ⟨col', ?_, hcw⟩
        rw [f2]
  · rw [a2, f4]
    simp

theorem stateInv_applyAction (σ : List Card → List Card) (s : UnoGameState)
    (p : Int) (a : String) (card : Option Card) (col : Option Color)
    (s' : UnoGameState) (b : Bool) (h : StateInv s)
    (heq : applyAction σ s p a card col = some (s', b)) : StateInv s' := by
  rcases applyAction_cases σ s p a card col s' b heq with
    ⟨-, rfl⟩ | ⟨-, -, hs'⟩ | ⟨-, c, s₀, s₂, -, h₀, hcm, hs'⟩
  · exact h
  · rw [hs']
    split
    · exact stateInv_endTurn _ p (stateInv_drawWithOption σ s p h)
    · exact stateInv_drawWithOption σ s p h
  · have h₀' : s₀ = s ∨ ∃ col', col' ≠ Color.WILD ∧
        s₀ = { s with pending_color := some col' } := by
      rcases h₀ with rfl | ⟨col', -, hcw, -, rfl⟩
      · exact Or.inl rfl
      · exact Or.inr ⟨col', hcw, rfl⟩
    rcases hs' with rfl | rfl
    · obtain ⟨-, f2, f3, f4, frest⟩ := commitCard_spec s₀ p c s₂ hcm
      refine ⟨fun hgo => by simp at hgo, ?_⟩
      show s₂.discard_pile ≠ []
      rw [f4]
      simp
    · exact stateInv_afterPlay s s₀ s₂ p c h h₀' hcm

theorem stateInv_playDrawnCard (s : UnoGameState) (p : Int)
    (col : Option Color) (s' : UnoGameState) (b : Bool) (h : StateInv s)
    (heq : playDrawnCard s p col = some (s', b)) : StateInv s' := by
  rcases playDrawnCard_cases s p col s' b heq with
    ⟨-, rfl⟩ | ⟨-, c, s₀, s₂, -, h₀, hcm, hs'⟩
  · exact h
  · have h₀' : s₀ = s ∨ ∃ col', col' ≠ Color.WILD ∧
        s₀ = { s with pending_color := some col' } := by
      rcases h₀ with rfl | ⟨col', -, hcw, -, rfl⟩
      · exact Or.inl rfl
      · exact Or.inr ⟨col', hcw, rfl⟩
    rcases hs' with rfl | rfl
    · obtain ⟨-, f2, f3, f4, frest⟩ := commitCard_spec s₀ p c s₂ hcm
      refine ⟨fun hgo => by simp at hgo, ?_⟩
      show s₂.discard_pile ≠ []
      rw [f4]
      simp
    · have hinv := stateInv_afterPlay s s₀ s₂ p c h h₀' hcm
      exact ⟨fun hgo => hinv.1 hgo, hinv.2⟩

theorem initializeGame_inv (σ : List Card → List Card)
    (hσ : ∀ l, (σ l).Perm l) (n : Nat) (h2 : 2 ≤ n) (h4 : n ≤ 4) :
    StateInv (initializeGame σ (initState n)) := by
  have hcdl : createDeck.length = 108 := by decide
  have hσlen : (σ createDeck).length = 108 := by
    rw [(hσ createDeck).length_eq, hcdl]
  have hdl : (dealOrder n).length = 7 * n := by
    unfold dealOrder
    rw [List.length_flatten]
    simp [List.map_replicate, List.sum_replicate]
    omega
  have hdm : ∀ q ∈ dealOrder n, q < n := by
    intro q hq
    unfold dealOrder at hq
    rw [List.mem_flatten] at hq
    obtain ⟨l, hl, hql⟩ := hq
    rw [List.eq_of_mem_replicate hl] at hql
    exact List.mem_range.mp hql
  obtain ⟨e1, e2, e3, e4⟩ := deal_foldl (dealOrder n)
    (List.replicate n []) (σ createDeck)
    (by simpa using hdm)
    (by rw [hdl, hσlen]; omega)
  rw [hdl, hσlen] at e1
  unfold initializeGame
  simp only [initState]
  rcases hp2 : (dealOrder n).foldl dealStep
      (List.replicate n [], σ createDeck) with ⟨hands₁, d₁⟩
  rw [hp2] at e1
  simp only [] at e1 ⊢
  have hd₁ : d₁ ≠ [] := by
    intro hnil
    rw [hnil] at e1
    simp at e1
    omega
  obtain ⟨t0, ht0⟩ : ∃ t0, d₁.getLast? = some t0 := by
    cases hg : d₁.getLast? with
    | none => exact absurd (List.getLast?_eq_none_iff.mp hg) hd₁
    | some t0 => exact ⟨t0, rfl⟩
  have hpop : popLast d₁ = some (t0, d₁.dropLast) := by
    unfold popLast
    rw [ht0]
  rw [hpop]
  simp only []
  rcases hloop : initLoop d₁.dropLast.length t0 d₁.dropLast with ⟨t, d⟩
  simp only []
  exact ⟨fun _ => rfl, by simp⟩

theorem reachable_stateInv (s : UnoGameState) (h : Reachable s) :
    StateInv s := by
  induction h with
  | init σ n hσ h2 h4 => exact initializeGame_inv σ hσ n h2 h4
  | apply σ t p a card col s' b ht hσ heq ih =>
    exact stateInv_applyAction σ t p a card col s' b ih heq
  | draw σ t p ht hσ ih => exact stateInv_drawWithOption σ t p ih
  | playDrawn t p col s' b ht heq ih =>
    exact stateInv_playDrawnCard t p col s' b ih heq
  | endTurn t p ht ih => exact stateInv_endTurn t p ih

theorem count_draw_map_play (l : List Card) :
    ((l.map LegalAct.play).count LegalAct.draw) = 0 := by
  rw [List.count_eq_zero]
  intro hmem
  obtain ⟨a, -, hEq⟩ := List.mem_map.mp hmem
  exact absurd hEq (by simp)

theorem count_draw_legal (s : UnoGameState) (p : Int) :
    (s.getLegalActions p).count LegalAct.draw = 1 := by
  unfold getLegalActions
  simp only []
  split <;>
  · rw [List.count_append, count_draw_map_play]
    simp

theorem mem_legal_play_iff (s : UnoGameState) (p : Int) (c : Card)
    (hc : c ∈ s.hand p) :
    (LegalAct.play c ∈ s.getLegalActions p ↔
      (if 0 < s.draw_pile_count then
        s.getTopCard.isSome && s.canPlayCard c s.getTopCard true
       else s.canPlayCard c s.getTopCard false) = true) := by
  unfold getLegalActions
  simp only []
  split
  · next h =>
    constructor
    · intro hmem
      rcases List.mem_append.mp hmem with h1 | h1
      · obtain ⟨a, ha, hEq⟩ := List.mem_map.mp h1
        injection hEq with hEq
        subst hEq
        exact (List.mem_filter.mp ha).2
      · simp at h1
    · intro hP
      exact List.mem_append.mpr (Or.inl (List.mem_map.mpr
        ⟨c, List.mem_filter.mpr ⟨hc, hP⟩, rfl⟩))
  · next h =>
    constructor
    · intro hmem
      rcases List.mem_append.mp hmem with h1 | h1
      · obtain ⟨a, ha, hEq⟩ := List.mem_map.mp h1
        injection hEq with hEq
        subst hEq
        exact (List.mem_filter.mp ha).2
      · simp at h1
    · intro hP
      exact List.mem_append.mpr (Or.inl (List.mem_map.mpr
        ⟨c, List.mem_filter.mpr ⟨hc, hP⟩, rfl⟩))

theorem canPlay_false_iff (s : UnoGameState) (c t : Card)
    (hpend : s.pending_color = none) :
    (s.canPlayCard c (some t) false = true ↔ c.matches t = true) := by
  unfold canPlayCard
  by_cases hw : c.color = Color.WILD
  · simp [hw, hpend, Card.matches]
  · simp [hw, hpend]

theorem canPlay_true_iff (s : UnoGameState) (c t : Card)
    (hpend : s.pending_color = none) :
    (s.canPlayCard c (some t) true = true ↔
      (c.color = Color.WILD ∨ chainContinues c t)) := by
  unfold canPlayCard chainContinues
  by_cases hw : c.color = Color.WILD
  · simp [hw, hpend]
  · cases htt : t.type <;> simp [hw, hpend, htt]

theorem sigma0_perm : ∀ l, (sigma0 l).Perm l := by
  intro l
  unfold sigma0
  split
  · next h =>
    subst h
    decide
  · exact List.Perm.refl l

set_option maxRecDepth 4000 in
theorem sChain_reachable : Reachable sChain := by
  have h0 : Reachable sInitChain :=
    Reachable.init sigma0 2 sigma0_perm (by decide) (by decide)
  have hstep : applyAction sigma0 sInitChain 0 "play" (some cDrawTwoR) none =
      some (sChain, true) := by decide
  exact Reachable.apply sigma0 sInitChain 0 "play" (some cDrawTwoR) none
    sChain true h0 sigma0_perm hstep

set_option maxRecDepth 4000 in
/-- C2 counterexample: in the reachable state `sChain` an active DRAW_TWO
chain is pending (`draw_pile_count = 2`), player 1 (to move) holds the
plain WILD card `cWild100`; the engine lists it as a legal PLAY (the
wild-color early return in `_can_play_card` precedes the chain check), but
the claim's characterization says only chain-continuing cards are legal,
and a WILD does not continue a DRAW_TWO chain. -/
theorem claim_C2_counterexample :
    Reachable sChain ∧
    cWild100 ∈ sChain.hand sChain.current_player ∧
    LegalAct.play cWild100 ∈
      sChain.getLegalActions sChain.current_player ∧
    ¬claimC2RHS sChain cWild100 := by
  refine ⟨sChain_reachable, by decide, by decide, ?_⟩
  rintro ⟨top, htop, hc⟩
  have htc : sChain.getTopCard = some cDrawTwoR := by decide
  rw [htc] at htop
  injection htop with htop
  subst htop
  rcases hc with ⟨hpdc, -⟩ | ⟨-, hchain⟩
  · have h2 : sChain.draw_pile_count = 2 := by decide
    omega
  · rcases hchain with ⟨-, hct, -⟩ | ⟨-, hct⟩
    · exact absurd hct (by decide)
    · exact absurd hct (by decide)

/-- C2 (as amended): in every reachable state in which the game is not
over, a card C of the current player's hand is listed as a PLAY action iff
the chain is inactive, C matches the effective top card and the pending
color allows it, or the chain is active and C is wild-colored or continues
the chain (the engine's wild-color early return also fires during an
active chain); the action list always contains exactly one DRAW action. -/
theorem claim_C2_amended (s : UnoGameState) (hr : Reachable s)
    (hgo : s.game_over = false) :
    (∀ c ∈ s.hand s.current_player,
      (LegalAct.play c ∈ s.getLegalActions s.current_player ↔
        claimC2AmendedRHS s c)) ∧
    (s.getLegalActions s.current_player).count LegalAct.draw = 1 := by
  obtain ⟨hp, hdne⟩ := reachable_stateInv s hr
  have hpend : s.pending_color = none := hp hgo
  obtain ⟨t, ht⟩ : ∃ t, s.discard_pile.getLast? = some t := by
    cases hg : s.discard_pile.getLast? with
    | none => exact absurd (List.getLast?_eq_none_iff.mp hg) hdne
    | some t => exact ⟨t, rfl⟩
  have htop : s.getTopCard = some t := by
    unfold getTopCard
    rw [ht, hpend]
  refine ⟨?_, count_draw_legal s s.current_player⟩
  intro c hc
  rw [mem_legal_play_iff s s.current_player c hc]
  unfold claimC2AmendedRHS
  by_cases hpdc : 0 < s.draw_pile_count
  · rw [if_pos hpdc, htop]
    simp only [Option.isSome_some, Bool.true_and]
    rw [canPlay_true_iff s c t hpend]
    constructor
    · intro hcase
      exact ⟨t, rfl, Or.inr ⟨hpdc, hcase⟩⟩
    · rintro ⟨top', htop', hdisj⟩
      injection htop' with htop'
      subst htop'
      rcases hdisj with ⟨hz, -⟩ | ⟨-, hcase⟩
      · omega
      · exact hcase
  · rw [if_neg hpdc, htop, canPlay_false_iff s c t hpend]
    constructor
    · intro hm
      exact ⟨t, rfl, Or.inl ⟨by omega, hm, Or.inl hpend⟩⟩
    · rintro ⟨top', htop', hdisj⟩
      injection htop' with htop'
      subst htop'
      rcases hdisj with ⟨-, hm, -⟩ | ⟨hgt, -⟩
      · exact hm
      · omega

set_option maxRecDepth 4000 in
/-- C2 amended witness: the reachable chain state `sChain`. -/
theorem claim_C2_amended_witness :
    (Reachable sChain ∧ sChain.game_over = false) ∧
    ((∀ c ∈ sChain.hand sChain.current_player,
       (LegalAct.play c ∈ sChain.getLegalActions sChain.current_player ↔
         claimC2AmendedRHS sChain c)) ∧
     (sChain.getLegalActions sChain.current_player).count
       LegalAct.draw = 1) :=
  ⟨⟨sChain_reachable, by decide⟩,
   claim_C2_amended sChain sChain_reachable (by decide)⟩

theorem removeFirst_some_of_mem :
    ∀ (l : List Card) (c : Card), c ∈ l →
      ∃ l', removeFirst l c = some l' := by
  intro l c
  induction l with
  | nil => intro h; simp at h
  | cons x xs ih =>
    intro h
    by_cases hx : x = c
    · exact ⟨xs, by simp [removeFirst, hx]⟩
    · obtain ⟨l', hl'⟩ := ih (by
        rcases List.mem_cons.mp h with h1 | h1
        · exact absurd h1.symm hx
        · exact h1)
      exact ⟨x :: l', by simp [removeFirst, hx, hl']⟩

theorem removeFirst_none_of_not_mem :
    ∀ (l : List Card) (c : Card), c ∉ l → removeFirst l c = none := by
  intro l c
  induction l with
  | nil => intro _; rfl
  | cons x xs ih =>
    intro h
    have hx : ¬x = c := fun hEq => h (hEq ▸ List.mem_cons_self x xs)
    have hxs : c ∉ xs := fun hmem => h (List.mem_cons_of_mem x hmem)
    simp [removeFirst, hx, ih hxs]

/-- C5 (as amended): card identity in `apply_action` is by reference, not
by value.  Playing the very object `c` held in the hand succeeds and
removes exactly that object (the first `==`-equal occurrence), appending
it to the discard pile; playing a distinct object `c'` that prints the
same (same color, rank label and type) but is not present by identity
passes the `str`-based legality check and then raises an uncaught
`ValueError` in `list.remove` (modeled as `none`). -/
theorem claim_C5_amended (σ : List Card → List Card) (s : UnoGameState)
    (p : Int) (c c' : Card)
    (hgo : s.game_over = false) (hp : p = s.current_player)
    (hnw : c.type ≠ CardType.WILD ∧ c.type ≠ CardType.WILD_DRAW_FOUR)
    (hnw' : c'.type ≠ CardType.WILD ∧ c'.type ≠ CardType.WILD_DRAW_FOUR)
    (hlegal : LegalAct.play c ∈ s.getLegalActions p)
    (hmem : c ∈ s.hand p)
    (hstr : c'.str = c.str)
    (hnotid : c' ∉ s.hand p) :
    (∃ s' h', applyAction σ s p "play" (some c) none = some (s', true) ∧
      removeFirst (s.hand p) c = some h' ∧
      s'.player_hands = s.player_hands.set p.toNat h' ∧
      s'.discard_pile = s.discard_pile ++ [c]) ∧
    applyAction σ s p "play" (some c') none = none := by
  have hgo' : ¬s.game_over = true := by simp [hgo]
  have hcur : ¬p ≠ s.current_player := by simp [hp]
  have hnd : ¬("play" = "draw") := by decide
  have hps : ("play" = "play" ∧ (some c).isSome = true) := by simp
  have hps' : ("play" = "play" ∧ (some c').isSome = true) := by simp
  have hany : ¬¬((s.getLegalActions p).any fun a =>
      match a with
      | LegalAct.play cc => decide (cc.str = c.str)
      | LegalAct.draw => false) = true := by
    apply not_not_intro
    exact List.any_eq_true.mpr ⟨LegalAct.play c, hlegal, by simp⟩
  have hany' : ¬¬((s.getLegalActions p).any fun a =>
      match a with
      | LegalAct.play cc => decide (cc.str = c'.str)
      | LegalAct.draw => false) = true := by
    apply not_not_intro
    exact List.any_eq_true.mpr ⟨LegalAct.play c, hlegal, by simp [hstr]⟩
  have hnwc : ¬(c.type = CardType.WILD ∨
      c.type = CardType.WILD_DRAW_FOUR) := by
    rintro (h1 | h1)
    · exact hnw.1 h1
    · exact hnw.2 h1
  have hnwc' : ¬(c'.type = CardType.WILD ∨
      c'.type = CardType.WILD_DRAW_FOUR) := by
    rintro (h1 | h1)
    · exact hnw'.1 h1
    · exact hnw'.2 h1
  constructor
  · obtain ⟨h0, hrm0⟩ := removeFirst_some_of_mem _ c hmem
    rcases hcm : commitCard s p c with _ | s₂
    · exfalso
      unfold commitCard at hcm
      rw [hrm0] at hcm
      simp at hcm
    obtain ⟨⟨h', hrm, hhands⟩, f2, f3, f4, frest⟩ :=
      commitCard_spec s p c s₂ hcm
    refine ⟨(if (s₂.hand p).length = 0 then
        { s₂ with game_over := true, winner := some p }
      else s₂.advanceTurnWithSkip), h', ?_, hrm, ?_, ?_⟩
    · unfold applyAction
      rw [if_neg hgo', if_neg hcur, if_neg hnd, if_pos hps]
      simp only []
      rw [if_neg hany, if_neg hnwc]
      rw [hcm]
      simp only []
      split
      · rfl
      · rfl
    · split
      · exact hhands
      · rw [(advanceTurnWithSkip_fields s₂).2.2.1]
        exact hhands
    · split
      · exact f4
      · rw [(advanceTurnWithSkip_fields s₂).2.1]
        exact f4
  · have hcm' : commitCard s p c' = none := by
      unfold commitCard
      rw [removeFirst_none_of_not_mem _ c' hnotid]
    unfold applyAction
    rw [if_neg hgo', if_neg hcur, if_neg hnd, if_pos hps']
    simp only []
    rw [if_neg hany', if_neg hnwc']
    rw [hcm']

/-- C5 amended witness: the §8 scenario; cRed5 is held and legal,
cRed5Dup is a distinct object with the same printed value. -/
theorem claim_C5_amended_witness :
    (sScenario.game_over = false ∧ (0 : Int) = sScenario.current_player ∧
      (cRed5.type ≠ CardType.WILD ∧
        cRed5.type ≠ CardType.WILD_DRAW_FOUR) ∧
      (cRed5Dup.type ≠ CardType.WILD ∧
        cRed5Dup.type ≠ CardType.WILD_DRAW_FOUR) ∧
      LegalAct.play cRed5 ∈ sScenario.getLegalActions 0 ∧
      cRed5 ∈ sScenario.hand 0 ∧
      cRed5Dup.str = cRed5.str ∧
      cRed5Dup ∉ sScenario.hand 0) ∧
    ((∃ s' h',
        applyAction id sScenario 0 "play" (some cRed5) none =
          some (s', true) ∧
        removeFirst (sScenario.hand 0) cRed5 = some h' ∧
        s'.player_hands = sScenario.player_hands.set (0 : Int).toNat h' ∧
        s'.discard_pile = sScenario.discard_pile ++ [cRed5]) ∧
      applyAction id sScenario 0 "play" (some cRed5Dup) none = none) :=
  ⟨⟨by decide, by decide, by decide, by decide, by decide, by decide,
    by decide, by decide⟩,
   claim_C5_amended id sScenario 0 cRed5 cRed5Dup (by decide) (by decide)
     (by decide) (by decide) (by decide) (by decide) (by decide)
     (by decide)⟩
